import Mathlib

/-
Verification of the gitpulse repository: a shallow embedding of the
recommendation engine (src/agent.rs), repo status model (src/git.rs),
status cache (src/monitor.rs), scanner (src/scanner.rs), action executor
(src/actions.rs), dashboard builder (src/dashboard/builder.rs) and the
AI-provider collector (src/collectors/ai_mcp.rs), together with theorems
settling the frozen claims about them.

Machine integers (usize, u64) are modelled as Nat; Rust's u64 saturating
multiplication is made explicit where it occurs.  f64 arithmetic is
modelled over the rationals.  Filesystem state, subprocess output and
HTTP responses are modelled as explicit inputs (trees / oracles).
-/

namespace GitPulse

/-! ## Data model: src/git.rs -/

/-- Embeds `RepoStatus` from src/git.rs. -/
structure RepoStatus where
  branch : String
  uncommitted_count : Nat
  unpushed_count : Nat
  behind_count : Nat
  stash_count : Nat
  has_remote : Bool
  is_detached : Bool
deriving DecidableEq

/-- Embeds `Repo` from src/git.rs; `last_checked` is an abstract timestamp. -/
structure Repo where
  path : String
  name : String
  status : RepoStatus
  last_checked : Option Nat
deriving DecidableEq

/-- Embeds `Repo::needs_attention` from src/git.rs (the method used by the
dashboard builder). -/
def Repo.needs_attention (r : Repo) : Bool :=
  decide (0 < r.status.uncommitted_count) || decide (0 < r.status.unpushed_count)
    || decide (0 < r.status.behind_count)

/-! ## Data model: src/dashboard/models.rs -/

/-- Embeds the `ActionKind` enum from src/dashboard/models.rs. -/
inductive ActionKind where
  | GitStatus (repo_path : String)
  | GitFetch (repo_path : String)
  | GitPullRebase (repo_path : String)
  | GitPush (repo_path : String)
  | GitWorktreeList (repo_path : String)
  | GitAddCommitPullRebase (repo_path : String) (message : String)
  | GitPullRebasePush (repo_path : String)
  | GitAddCommitPush (repo_path : String) (message : String)
  | GitAddCommit (repo_path : String) (message : String)
  | GitStashList (repo_path : String)
  | GitRemoteList (repo_path : String)
  | GitSwitchCreate (repo_path : String) (branch : String)
  | KillProcess (pid : Int)
  | NpmInstallLockfile (repo_path : String)
  | CargoGenerateLockfile (repo_path : String)
  | UvLock (repo_path : String)
  | PipCompileRequirements (repo_path : String)
  | GoModTidy (repo_path : String)
  | BundleLock (repo_path : String)
  | IgnoreEnvFiles (repo_path : String) (files : List String)
  | SeedEnvFromExample (repo_path : String)
  | ProbeBinaryHelp (binary : String)
  | CheckBinaryInPath (binary : String)
  | ShowMessage (message : String)
deriving DecidableEq

/-- Embeds `ActionKind::affected_repo_path` from src/dashboard/models.rs. -/
def ActionKind.affected_repo_path : ActionKind → Option String
  | .GitStatus repo_path => some repo_path
  | .GitFetch repo_path => some repo_path
  | .GitPullRebase repo_path => some repo_path
  | .GitPush repo_path => some repo_path
  | .GitWorktreeList repo_path => some repo_path
  | .GitAddCommitPullRebase repo_path _ => some repo_path
  | .GitPullRebasePush repo_path => some repo_path
  | .GitAddCommitPush repo_path _ => some repo_path
  | .GitAddCommit repo_path _ => some repo_path
  | .GitStashList repo_path => some repo_path
  | .GitRemoteList repo_path => some repo_path
  | .GitSwitchCreate repo_path _ => some repo_path
  | .NpmInstallLockfile repo_path => some repo_path
  | .CargoGenerateLockfile repo_path => some repo_path
  | .UvLock repo_path => some repo_path
  | .PipCompileRequirements repo_path => some repo_path
  | .GoModTidy repo_path => some repo_path
  | .BundleLock repo_path => some repo_path
  | .IgnoreEnvFiles repo_path _ => some repo_path
  | .SeedEnvFromExample repo_path => some repo_path
  | .KillProcess _ => none
  | .ProbeBinaryHelp _ => none
  | .CheckBinaryInPath _ => none
  | .ShowMessage _ => none

/-! ## Recommender: src/agent.rs -/

/-- Embeds the `ActionPriority` enum from src/agent.rs. -/
inductive ActionPriority where
  | Critical
  | High
  | Medium
  | Low
  | Idle
deriving DecidableEq

/-- Embeds `ActionPriority::rank` from src/agent.rs. -/
def ActionPriority.rank : ActionPriority → Nat
  | .Critical => 4
  | .High => 3
  | .Medium => 2
  | .Low => 1
  | .Idle => 0

/-- Embeds the `Recommendation` struct from src/agent.rs. -/
structure Recommendation where
  priority : ActionPriority
  short_action : String
  action : String
  command : String
  reason : String
deriving DecidableEq

/-- Rust `Debug` escaping of one character, as used by the `{:?}` format of
a string (src/agent.rs builds commands with `format!("cd {:?} && {}", ..)`). -/
def rustDebugEscape (c : Char) : String :=
  if c = '"' then "\\\""
  else if c = '\\' then "\\\\"
  else if c = '\n' then "\\n"
  else if c = '\t' then "\\t"
  else if c = '\r' then "\\r"
  else String.singleton c

/-- Rust `{:?}` rendering of a string: quoted and escaped. -/
def rustDebugStr (s : String) : String :=
  "\"" ++ String.join (s.data.map rustDebugEscape) ++ "\""

/-- The `cmd` closure of `recommend` in src/agent.rs:
`format!("cd {:?} && {}", path, s)`. -/
def cmdIn (path s : String) : String :=
  "cd " ++ rustDebugStr path ++ " && " ++ s

/-- Embeds `recommend` from src/agent.rs (lines 48-158): the first-match
chain of early returns, including all message strings. -/
def recommend (repo : Repo) : Recommendation :=
  let path := repo.path
  if repo.status.is_detached then
    { priority := .Critical
      short_action := "reattach"
      action := "reattach HEAD to a branch"
      command := cmdIn path "git switch -c rescue-work"
      reason := "Repository is in detached HEAD state." }
  else if 0 < repo.status.behind_count ∧ 0 < repo.status.uncommitted_count then
    { priority := .Critical
      short_action := "commit+rebase"
      action := "commit/stash local work, then pull --rebase"
      command := cmdIn path "git add -A && git commit -m \"wip\" && git pull --rebase"
      reason := toString repo.status.uncommitted_count ++ " local changes + " ++
        toString repo.status.behind_count ++ " commits behind remote." }
  else if 0 < repo.status.behind_count ∧ 0 < repo.status.unpushed_count then
    { priority := .High
      short_action := "rebase+push"
      action := "pull --rebase and then push"
      command := cmdIn path "git pull --rebase && git push"
      reason := toString repo.status.unpushed_count ++ " ahead and " ++
        toString repo.status.behind_count ++ " behind remote (diverged)." }
  else if 0 < repo.status.behind_count then
    { priority := .High
      short_action := "pull"
      action := "pull latest changes"
      command := cmdIn path "git pull --rebase"
      reason := toString repo.status.behind_count ++ " commits behind remote." }
  else if 0 < repo.status.uncommitted_count ∧ 0 < repo.status.unpushed_count then
    { priority := .High
      short_action := "commit+push"
      action := "commit local work and push"
      command := cmdIn path "git add -A && git commit -m \"wip\" && git push"
      reason := toString repo.status.uncommitted_count ++ " local changes + " ++
        toString repo.status.unpushed_count ++ " commits ahead." }
  else if 0 < repo.status.uncommitted_count then
    { priority := .Medium
      short_action := "commit"
      action := "commit local work"
      command := cmdIn path "git add -A && git commit -m \"wip\""
      reason := toString repo.status.uncommitted_count ++ " uncommitted file(s)." }
  else if 0 < repo.status.unpushed_count then
    { priority := .Medium
      short_action := "push"
      action := "push local commits"
      command := cmdIn path "git push"
      reason := toString repo.status.unpushed_count ++ " commit(s) ahead of remote." }
  else if 0 < repo.status.stash_count then
    { priority := .Low
      short_action := "review stash"
      action := "review stashed work"
      command := cmdIn path "git stash list"
      reason := toString repo.status.stash_count ++ " stash entry(ies) present." }
  else if !repo.status.has_remote then
    { priority := .Low
      short_action := "set remote"
      action := "configure remote tracking"
      command := cmdIn path "git remote -v"
      reason := "No remote configured." }
  else
    { priority := .Idle
      short_action := "noop"
      action := "no action needed"
      command := cmdIn path "git status -sb"
      reason := "Working tree and remote state are clean." }

/-- Embeds `needs_attention` from src/agent.rs (line 44):
`recommend(repo).priority != ActionPriority::Idle`. -/
def agentNeedsAttention (repo : Repo) : Bool :=
  decide ((recommend repo).priority ≠ ActionPriority.Idle)

/-- Embeds `recommended_action_kind` from src/agent.rs (lines 160-212). -/
def recommended_action_kind (repo : Repo) : Option ActionKind :=
  let repo_path := repo.path
  if repo.status.is_detached then
    some (.GitSwitchCreate repo_path "rescue-work")
  else if 0 < repo.status.behind_count ∧ 0 < repo.status.uncommitted_count then
    some (.GitAddCommitPullRebase repo_path "wip")
  else if 0 < repo.status.behind_count ∧ 0 < repo.status.unpushed_count then
    some (.GitPullRebasePush repo_path)
  else if 0 < repo.status.behind_count then
    some (.GitPullRebase repo_path)
  else if 0 < repo.status.uncommitted_count ∧ 0 < repo.status.unpushed_count then
    some (.GitAddCommitPush repo_path "wip")
  else if 0 < repo.status.uncommitted_count then
    some (.GitAddCommit repo_path "wip")
  else if 0 < repo.status.unpushed_count then
    some (.GitPush repo_path)
  else if 0 < repo.status.stash_count then
    some (.GitStashList repo_path)
  else if !repo.status.has_remote then
    some (.GitRemoteList repo_path)
  else
    none

/-! ### Spec-side decision table (the fixed first-match table of §4.6) -/

/-- One row of the spec's decision table: a condition on the status, the
priority, and the `ActionKind` produced for a given repo path. -/
structure SpecRow where
  cond : RepoStatus → Bool
  priority : ActionPriority
  kind : String → Option ActionKind

/-- The spec's fixed decision table, row by row, in row order. -/
def recommendSpecTable : List SpecRow :=
  [ ⟨fun st => st.is_detached, .Critical,
      fun p => some (.GitSwitchCreate p "rescue-work")⟩,
    ⟨fun st => decide (0 < st.behind_count) && decide (0 < st.uncommitted_count), .Critical,
      fun p => some (.GitAddCommitPullRebase p "wip")⟩,
    ⟨fun st => decide (0 < st.behind_count) && decide (0 < st.unpushed_count), .High,
      fun p => some (.GitPullRebasePush p)⟩,
    ⟨fun st => decide (0 < st.behind_count), .High,
      fun p => some (.GitPullRebase p)⟩,
    ⟨fun st => decide (0 < st.uncommitted_count) && decide (0 < st.unpushed_count), .High,
      fun p => some (.GitAddCommitPush p "wip")⟩,
    ⟨fun st => decide (0 < st.uncommitted_count), .Medium,
      fun p => some (.GitAddCommit p "wip")⟩,
    ⟨fun st => decide (0 < st.unpushed_count), .Medium,
      fun p => some (.GitPush p)⟩,
    ⟨fun st => decide (0 < st.stash_count), .Low,
      fun p => some (.GitStashList p)⟩,
    ⟨fun st => !st.has_remote, .Low,
      fun p => some (.GitRemoteList p)⟩ ]

/-- The first matching row of the spec table, if any (otherwise the
implicit `Idle` row applies). -/
def specMatchedRow (st : RepoStatus) : Option SpecRow :=
  recommendSpecTable.find? (fun row => row.cond st)

/-- Priority of the first matching row; `Idle` when no row matches. -/
def specPriority (st : RepoStatus) : ActionPriority :=
  (specMatchedRow st).elim .Idle (·.priority)

/-- `ActionKind` of the first matching row; `none` when no row matches. -/
def specKind (st : RepoStatus) (path : String) : Option ActionKind :=
  (specMatchedRow st).bind (fun r => r.kind path)

/-! ## Dashboard builder: src/dashboard/builder.rs -/

/-- The `actionable_repos` overview metric computed by `build_snapshot`
(src/dashboard/builder.rs line 15):
`repos.iter().filter(|r| r.needs_attention()).count()` using
`Repo::needs_attention` from src/git.rs. -/
def actionable_repos (repos : List Repo) : Nat :=
  (repos.filter (fun r => r.needs_attention)).length

/-- A repo whose only anomaly is a detached HEAD: all counts zero. -/
def detachedOnlyRepo : Repo :=
  { path := "/tmp/detached", name := "detached",
    status := { branch := "HEAD", uncommitted_count := 0, unpushed_count := 0,
                behind_count := 0, stash_count := 0, has_remote := true,
                is_detached := true },
    last_checked := none }

/-- A repo with one uncommitted file and nothing else. -/
def dirtyOnlyRepo : Repo :=
  { path := "/tmp/dirty", name := "dirty",
    status := { branch := "main", uncommitted_count := 1, unpushed_count := 0,
                behind_count := 0, stash_count := 0, has_remote := true,
                is_detached := false },
    last_checked := none }

/-- Embeds the `ActionCommand` struct from src/dashboard/models.rs
(a data holder: label, preview string, action). -/
structure ActionCommand where
  label : String
  command : String
  action : ActionKind
deriving DecidableEq

/-- Embeds the `DashboardAlert` struct from src/dashboard/models.rs. -/
structure DashboardAlert where
  severity : String
  title : String
  detail : String
  repo : Option String
  action : Option ActionCommand
deriving DecidableEq

/-- The composite dedupe key used by `dedupe_alerts`
(src/dashboard/builder.rs lines 152-164):
`"{}|{}|{}|{}"` over severity, title, detail, repo-or-empty. -/
def alertKey (a : DashboardAlert) : String :=
  a.severity ++ "|" ++ a.title ++ "|" ++ a.detail ++ "|" ++ a.repo.getD ""

/-- The retain loop of `dedupe_alerts`: keep an alert iff its key was not
seen before, accumulating seen keys. -/
def dedupeAlertsGo (seen : List String) : List DashboardAlert → List DashboardAlert
  | [] => []
  | a :: t =>
    if alertKey a ∈ seen then dedupeAlertsGo seen t
    else a :: dedupeAlertsGo (alertKey a :: seen) t

/-- Embeds `dedupe_alerts` from src/dashboard/builder.rs. -/
def dedupe_alerts (alerts : List DashboardAlert) : List DashboardAlert :=
  dedupeAlertsGo [] alerts

/-- Embeds `severity_rank` from src/dashboard/builder.rs (lines 166-174). -/
def severity_rank (s : String) : Nat :=
  if s = "critical" then 4
  else if s = "high" then 3
  else if s = "warn" then 2
  else if s = "info" then 1
  else 0

/-- Model of Rust `str::cmp` (total lexicographic order on strings). -/
def strCmp (a b : String) : Ordering :=
  if a < b then .lt else if a = b then .eq else .gt

/-- The alert comparator passed to `sort_by` in `build_snapshot`
(src/dashboard/builder.rs lines 39-44): severity rank descending, then
presence of an action descending, then title ascending. -/
def alertOrdering (a b : DashboardAlert) : Ordering :=
  ((compare (severity_rank b.severity) (severity_rank a.severity)).then
    (compare b.action.isSome a.action.isSome)).then
    (strCmp a.title b.title)

/-- Boolean "a may precede b" induced by the comparator (`≠ Greater`). -/
def alertLeB (a b : DashboardAlert) : Bool :=
  decide (alertOrdering a b ≠ .gt)

/-- Insertion of one element into a sorted list (model of comparison sort). -/
def insertLeB (le : α → α → Bool) (x : α) : List α → List α
  | [] => [x]
  | y :: t => if le x y then x :: y :: t else y :: insertLeB le x t

/-- Comparison sort by a boolean "may precede" relation (models Rust
`sort_by`, whose output is sorted w.r.t. the comparator and a permutation
of the input). -/
def isortBy (le : α → α → Bool) : List α → List α
  | [] => []
  | x :: t => insertLeB le x (isortBy le t)

/-- The alert pipeline inside `build_snapshot`
(src/dashboard/builder.rs lines 38-45): dedupe, sort by the comparator,
truncate to 120. -/
def processAlerts (alerts : List DashboardAlert) : List DashboardAlert :=
  (isortBy alertLeB (dedupe_alerts alerts)).take 120

/-- The spec's description of the alert order: severity rank descending,
then presence of an action descending, then title ascending. -/
def specAlertLe (a b : DashboardAlert) : Prop :=
  severity_rank b.severity < severity_rank a.severity ∨
  (severity_rank a.severity = severity_rank b.severity ∧
    ((b.action.isSome < a.action.isSome) ∨
      (b.action.isSome = a.action.isSome ∧ a.title ≤ b.title)))

/-- A concrete alert used to witness the alert-pipeline properties. -/
def alertA : DashboardAlert :=
  { severity := "warn", title := "dup", detail := "same", repo := some "r1", action := none }

/-! ## Provider collector: src/collectors/ai_mcp.rs -/

/-- The process environment: variable name to value. -/
def Env : Type := String → Option String

/-- Model of Rust `str::parse::<u64>()`: optional leading plus sign, at
least one ASCII digit, value below 2^64 (overflow fails). -/
def parseU64 (s : String) : Option Nat :=
  let cs := match s.data with
    | '+' :: rest => rest
    | cs => cs
  if cs.isEmpty then none
  else if cs.all Char.isDigit then
    let n := cs.foldl (fun acc c => acc * 10 + (c.toNat - '0'.toNat)) 0
    if n < 2 ^ 64 then some n else none
  else none

/-- Embeds `read_env_u64` from src/collectors/ai_mcp.rs (lines 996-1002):
unset, unparseable, or zero values fall back to the default. -/
def read_env_u64 (env : Env) (key : String) (default_value : Nat) : Nat :=
  (((env key).bind parseU64).filter (fun v => decide (0 < v))).getD default_value

/-- Embeds `read_env_usize` from src/collectors/ai_mcp.rs (lines 1004-1010);
usize is 64-bit here, so the body coincides with `read_env_u64`. -/
def read_env_usize (env : Env) (key : String) (default_value : Nat) : Nat :=
  (((env key).bind parseU64).filter (fun v => decide (0 < v))).getD default_value

/-- The memoization TTL read by `fetch_live_data_cached` (line 397). -/
def providerCacheSecs (env : Env) : Nat :=
  read_env_u64 env "AGENTPULSE_PROVIDER_CACHE_SECS" 60

/-- The HTTP timeout read by `http_get_json` (line 770). -/
def providerTimeoutSecs (env : Env) : Nat :=
  read_env_u64 env "AGENTPULSE_PROVIDER_TIMEOUT_SECS" 8

/-- The page cap read by the paged fetch loops (lines 486, 533, 601, 648). -/
def providerMaxPages (env : Env) : Nat :=
  read_env_usize env "AGENTPULSE_PROVIDER_MAX_PAGES" 6

/-- An environment with every variable unset. -/
def envUnset : Env := fun _ => none

/-- An environment where the page-cap variable is set to the string 0. -/
def envMaxPagesZero : Env :=
  fun k => if k = "AGENTPULSE_PROVIDER_MAX_PAGES" then some "0" else none

/-! ### JSON values and cost accumulation (f64 modelled over ℚ) -/

/-- A JSON value as handled by the collector (serde_json `Value`); numbers
are modelled as rationals. -/
inductive Json where
  | null
  | bool (b : Bool)
  | num (q : ℚ)
  | str (s : String)
  | arr (items : List Json)
  | obj (fields : List (String × Json))

/-- Object field lookup (`Value::get` on an object; `None` otherwise). -/
def Json.get : Json → String → Option Json
  | .obj fields, key => (fields.find? (fun f => f.1 == key)).map (fun f => f.2)
  | _, _ => none

/-- `Value::as_array`. -/
def Json.as_array : Json → Option (List Json)
  | .arr items => some items
  | _ => none

/-- The sign/digits/fraction/exponent part of a decimal float literal, as
accepted by Rust `str::parse::<f64>()` on the payloads at issue. -/
def digitsToNat (cs : List Char) : Nat :=
  cs.foldl (fun acc c => acc * 10 + (c.toNat - '0'.toNat)) 0

/-- Exponent suffix of a float literal: optional sign then digits. -/
def parseExpPart (cs : List Char) : Option ℚ :=
  let (neg, ds) := match cs with
    | '-' :: rest => (true, rest)
    | '+' :: rest => (false, rest)
    | rest => (false, rest)
  if ds.isEmpty ∨ ¬ds.all Char.isDigit then none
  else if neg then some (1 / (10 : ℚ) ^ digitsToNat ds)
  else some ((10 : ℚ) ^ digitsToNat ds)

/-- Model of Rust `str::parse::<f64>()` restricted to plain decimal
notation (sign, digits, optional fraction, optional exponent). -/
def parseF64 (s : String) : Option ℚ :=
  let (sign, cs) : ℚ × List Char := match s.data with
    | '-' :: rest => (-1, rest)
    | '+' :: rest => (1, rest)
    | rest => (1, rest)
  let intPart := cs.takeWhile Char.isDigit
  let rest := cs.dropWhile Char.isDigit
  match rest with
  | [] =>
    if intPart.isEmpty then none else some (sign * digitsToNat intPart)
  | '.' :: rest2 =>
    let fracPart := rest2.takeWhile Char.isDigit
    let rest3 := rest2.dropWhile Char.isDigit
    if intPart.isEmpty ∧ fracPart.isEmpty then none
    else
      let base : ℚ :=
        (digitsToNat intPart : ℚ) + (digitsToNat fracPart : ℚ) / (10 : ℚ) ^ fracPart.length
      match rest3 with
      | [] => some (sign * base)
      | 'e' :: rest4 => (parseExpPart rest4).map (fun e => sign * base * e)
      | 'E' :: rest4 => (parseExpPart rest4).map (fun e => sign * base * e)
      | _ => none
  | 'e' :: rest2 =>
    if intPart.isEmpty then none
    else (parseExpPart rest2).map (fun e => sign * (digitsToNat intPart : ℚ) * e)
  | 'E' :: rest2 =>
    if intPart.isEmpty then none
    else (parseExpPart rest2).map (fun e => sign * (digitsToNat intPart : ℚ) * e)
  | _ => none

/-- Embeds `value_as_f64` from src/collectors/ai_mcp.rs (lines 976-987):
numbers directly, strings via float parse. -/
def value_as_f64 : Json → Option ℚ
  | .num q => some q
  | .str s => parseF64 s
  | _ => none

/-- Embeds `accumulate_openai_cost` from src/collectors/ai_mcp.rs
(lines 867-881): add `result.amount.value` over `data[].results[]`. -/
def accumulate_openai_cost (value : Json) (cost_usd : ℚ) : ℚ :=
  match (value.get "data").bind Json.as_array with
  | some buckets =>
    buckets.foldl (fun c bucket =>
      match (bucket.get "results").bind Json.as_array with
      | some results =>
        results.foldl (fun c result =>
          match result.get "amount" with
          | some (Json.obj fields) =>
            match (Json.obj fields).get "value" with
            | some v => c + (value_as_f64 v).getD 0
            | none => c
          | _ => c) c
      | none => c) cost_usd
  | none => cost_usd

/-- Embeds `accumulate_claude_cost` from src/collectors/ai_mcp.rs
(lines 943-956): amounts are cents, divided by 100. -/
def accumulate_claude_cost (value : Json) (cost_usd : ℚ) : ℚ :=
  match (value.get "data").bind Json.as_array with
  | some buckets =>
    buckets.foldl (fun c bucket =>
      match (bucket.get "results").bind Json.as_array with
      | some results =>
        results.foldl (fun c result =>
          match result.get "amount" with
          | some amount => c + (value_as_f64 amount).getD 0 / 100
          | none => c) c
      | none => c) cost_usd
  | none => cost_usd

/-- Spec-side: the amount contributed by one OpenAI result:
`result.amount.value` as f64, defaulting to 0. -/
def openaiResultAmount (result : Json) : ℚ :=
  match result.get "amount" with
  | some (Json.obj fields) =>
    match (Json.obj fields).get "value" with
    | some v => (value_as_f64 v).getD 0
    | none => 0
  | _ => 0

/-- Spec-side: the sum over one OpenAI page of `result.amount.value`. -/
def openaiPageCost (page : Json) : ℚ :=
  (((((page.get "data").bind Json.as_array).getD []).map (fun bucket =>
    (((((bucket.get "results").bind Json.as_array).getD []).map
      openaiResultAmount)).sum)).sum)

/-- Spec-side: the amount contributed by one Anthropic result:
`result.amount` in cents divided by 100, defaulting to 0. -/
def claudeResultAmount (result : Json) : ℚ :=
  match result.get "amount" with
  | some amount => (value_as_f64 amount).getD 0 / 100
  | none => 0

/-- Spec-side: the sum over one Anthropic page of `result.amount / 100`. -/
def claudePageCost (page : Json) : ℚ :=
  (((((page.get "data").bind Json.as_array).getD []).map (fun bucket =>
    (((((bucket.get "results").bind Json.as_array).getD []).map
      claudeResultAmount)).sum)).sum)

/-- Embeds the `ProviderKind` enum from src/dashboard/models.rs. -/
inductive ProviderKind where
  | Claude
  | Gemini
  | OpenAi
deriving DecidableEq

/-- The per-million token prices passed to `collect_provider` by
`collect_provider_usage` (src/collectors/ai_mcp.rs lines 169-204):
(price_in_per_million, price_out_per_million) in USD. -/
def providerPrices : ProviderKind → ℚ × ℚ
  | .Claude => (3, 15)
  | .Gemini => (1.25, 5)
  | .OpenAi => (5, 15)

/-- The `estimated_from_tokens` computation in `collect_provider`
(src/collectors/ai_mcp.rs lines 323-324). -/
def estimated_from_tokens (input_tokens output_tokens : Nat)
    (price_in_per_million price_out_per_million : ℚ) : ℚ :=
  ((input_tokens : ℚ) / 1000000) * price_in_per_million +
    ((output_tokens : ℚ) / 1000000) * price_out_per_million

/-- The local cost choice in `collect_provider` (lines 326-330): the
explicit cost when positive, otherwise the token heuristic. -/
def local_estimated_cost (explicit_cost est : ℚ) : ℚ :=
  if 0 < explicit_cost then explicit_cost else est

/-! ### Text utilities shared by the gitignore step and env parsing
(file contents and string values are modelled at the character level so
that every definition is kernel-executable). -/

/-- Strip one trailing carriage return, as Rust `str::lines` does at each
line-feed terminator. -/
def stripTrailingCR (l : List Char) : List Char :=
  if l.getLast? = some '\r' then l.dropLast else l

/-- Model of Rust `str::trim`: drop whitespace from both ends. -/
def trimChars (l : List Char) : List Char :=
  ((l.dropWhile Char.isWhitespace).reverse.dropWhile Char.isWhitespace).reverse

/-- Rust `str::trim` on a string. -/
def rustTrim (s : String) : String :=
  ⟨trimChars s.data⟩

/-- The worker behind `rustLines`: split at each line feed (stripping one
preceding carriage return); a final line without terminator is kept as
is; `acc` holds the pending line reversed. -/
def linesAux : List Char → List Char → List (List Char)
  | [], acc => if acc.isEmpty then [] else [acc.reverse]
  | c :: cs, acc =>
    if c = '\n' then stripTrailingCR acc.reverse :: linesAux cs []
    else linesAux cs (c :: acc)

/-- Model of Rust `str::lines` on file contents. -/
def rustLines (content : List Char) : List (List Char) :=
  linesAux content []

/-- The check of `append_env_pattern_to_gitignore`
(src/actions.rs line 252): some line trims to `.env*`. -/
def hasEnvLine (content : List Char) : Bool :=
  (rustLines content).any (fun line => trimChars line == ".env*".data)

/-- Embeds `append_env_pattern_to_gitignore` from src/actions.rs
(lines 249-263) at the content level: a missing `.gitignore` reads as the
empty content (`unwrap_or_default`), and the function returns the
contents written back (unchanged when a `.env*` line is present). -/
def append_env_pattern_content (existing : List Char) : List Char :=
  if hasEnvLine existing then existing
  else if existing ≠ [] ∧ existing.getLast? ≠ some '\n' then
    (existing ++ ['\n']) ++ (".env*".data ++ ['\n'])
  else
    existing ++ (".env*".data ++ ['\n'])

/-- Spec-side: how many lines of the contents trim to `.env*`. -/
def countTrimEnv (content : List Char) : Nat :=
  ((rustLines content).filter (fun l => trimChars l == ".env*".data)).length

/-- Spec-side: how many lines of the contents equal `.env*` exactly. -/
def countExactEnv (content : List Char) : Nat :=
  ((rustLines content).filter (fun l => l == ".env*".data)).length

/-! ### Live-fetch gating and the data_source / configured invariant -/

/-- Embeds the `ProviderLiveData` struct from src/collectors/ai_mcp.rs. -/
structure ProviderLiveData where
  sessions : Option Nat
  total_input_tokens : Option Nat
  total_output_tokens : Option Nat
  cost_usd : Option ℚ
  notes : List String

/-- The outcome of the HTTP / bq paging loops once a fetch proceeds past
its environment gate (network and parsing abstracted as an oracle). -/
def LiveOracle : Type := Except String ProviderLiveData

/-- Embeds `first_env_value` from src/collectors/ai_mcp.rs
(lines 989-994): first set, non-empty-after-trim value among the keys. -/
def first_env_value (env : Env) (keys : List String) : Option String :=
  ((keys.filterMap env).map (fun v => rustTrim v)).find? (fun v => !(v == ""))

/-- Embeds the environment gate of `fetch_openai_live_data` (line 448);
past the gate, the paging loops are the oracle. -/
def fetch_openai_live_data (env : Env) (o : LiveOracle) :
    Except String (Option ProviderLiveData) :=
  match first_env_value env ["OPENAI_ADMIN_KEY", "OPENAI_API_KEY"] with
  | none => .ok none
  | some _ => o.map some

/-- Embeds the environment gate of `fetch_claude_live_data` (line 563). -/
def fetch_claude_live_data (env : Env) (o : LiveOracle) :
    Except String (Option ProviderLiveData) :=
  match first_env_value env ["ANTHROPIC_ADMIN_API_KEY", "ANTHROPIC_API_KEY"] with
  | none => .ok none
  | some _ => o.map some

/-- Embeds `is_safe_bq_table_identifier` from src/collectors/ai_mcp.rs
(lines 1020-1030). -/
def is_safe_bq_table_identifier (value : String) : Bool :=
  if value.isEmpty then false
  else if (value.data.filter (fun c => c == '.')).length < 2 then false
  else value.data.all (fun c => c.isAlphanum || c == '_' || c == '.' || c == '-')

/-- Embeds the gate of `fetch_gemini_live_data` (lines 681-694): requires
`AGENTPULSE_GEMINI_BQ_TABLE` non-empty after trim and a safe identifier;
past the gate, the bq query is the oracle. -/
def fetch_gemini_live_data (env : Env) (o : LiveOracle) :
    Except String (Option ProviderLiveData) :=
  match ((env "AGENTPULSE_GEMINI_BQ_TABLE").map (fun v => rustTrim v)).filter
      (fun v => !(v == "")) with
  | none => .ok none
  | some table =>
    if !is_safe_bq_table_identifier table then
      .error "AGENTPULSE_GEMINI_BQ_TABLE must be project.dataset.table using only [A-Za-z0-9_.-]"
    else o.map some

/-- The env keys passed to `collect_provider` per provider by
`collect_provider_usage` (src/collectors/ai_mcp.rs lines 169-204). -/
def provider_env_keys : ProviderKind → List String
  | .Claude => ["ANTHROPIC_ADMIN_API_KEY", "ANTHROPIC_API_KEY"]
  | .Gemini => ["GEMINI_API_KEY", "GOOGLE_API_KEY", "AGENTPULSE_GEMINI_BQ_TABLE"]
  | .OpenAi => ["OPENAI_ADMIN_KEY", "OPENAI_API_KEY"]

/-- The live fetch dispatched per provider (lines 180, 193, 202). -/
def provider_live_fetch (p : ProviderKind) (env : Env) (o : LiveOracle) :
    Except String (Option ProviderLiveData) :=
  match p with
  | .Claude => fetch_claude_live_data env o
  | .Gemini => fetch_gemini_live_data env o
  | .OpenAi => fetch_openai_live_data env o

/-- Whether the provider has a supplementary structured local source:
Claude merges `~/.claude/stats-cache.json` and OpenAI merges Codex session
files (src/collectors/ai_mcp.rs lines 294-321); Gemini has none. -/
def provider_supplementary_applies : ProviderKind → Bool
  | .Gemini => false
  | _ => true

/-- The filesystem-dependent inputs of `collect_provider`, abstracted:
whether each candidate root exists, whether any log file parsed as JSON,
and whether the provider's supplementary local source was found. -/
structure LocalUsageInput where
  rootsExist : List Bool
  parsedAnyLog : Bool
  supplementary : Bool

/-- The `configured` / `data_source` computation of `collect_provider`
(src/collectors/ai_mcp.rs lines 207-389): configured from env keys, from
existing roots, and from supplementary sources; `data_source` is
`unconfigured` / `local_logs` / `heuristic`, overridden to `live` exactly
when the live fetch returns `Ok(Some(..))`. -/
def collect_provider_source (p : ProviderKind) (env : Env)
    (localIn : LocalUsageInput) (o : LiveOracle) : Bool × String :=
  let env_configured := (provider_env_keys p).any (fun k => (env k).isSome)
  let roots_configured := localIn.rootsExist.any id
  let supp := provider_supplementary_applies p && localIn.supplementary
  let configured := env_configured || roots_configured || supp
  let has_local_data := localIn.parsedAnyLog || supp
  let data_source :=
    if !configured then "unconfigured"
    else if has_local_data then "local_logs"
    else "heuristic"
  match provider_live_fetch p env o with
  | .ok (some _) => (configured, "live")
  | _ => (configured, data_source)

/-- An environment with only `OPENAI_API_KEY` set. -/
def envWithOpenAiKey : Env :=
  fun k => if k = "OPENAI_API_KEY" then some "sk-test" else none

/-- Local inputs with nothing found on disk. -/
def localInNone : LocalUsageInput :=
  { rootsExist := [], parsedAnyLog := false, supplementary := false }

/-- A live oracle whose network call fails. -/
def oracleErr : LiveOracle := .error "network unavailable"

/-! ## Filesystem model: trees with modification times, used by the
status cache (src/monitor.rs) and the scanner (src/scanner.rs). -/

/-- A filesystem node: a directory with named entries, or a regular file
with contents; both carry a modification time. -/
inductive FsEntry where
  | dir (entries : List (String × FsEntry)) (mtime : Nat)
  | file (content : String) (mtime : Nat)

/-- The mtime reported by `fs::metadata` for a node of either kind. -/
def FsEntry.mtimeOf : FsEntry → Nat
  | .dir _ m => m
  | .file _ m => m

/-- Walk a path (list of components) down from a node, taking the first
entry matching each name. -/
def lookupFs (node : FsEntry) : List String → Option FsEntry
  | [] => some node
  | name :: rest =>
    match node with
    | .file _ _ => none
    | .dir entries _ =>
      match entries.find? (fun e => e.1 == name) with
      | some e => lookupFs e.2 rest
      | none => none

/-- `Path::is_dir`. -/
def isDirAt (root : FsEntry) (p : List String) : Bool :=
  match lookupFs root p with
  | some (.dir _ _) => true
  | _ => false

/-- `fs::read_to_string` (succeeds only on regular files). -/
def readToStringAt (root : FsEntry) (p : List String) : Option String :=
  match lookupFs root p with
  | some (.file content _) => some content
  | _ => none

/-- `file_mtime` from src/monitor.rs (lines 136-138): the metadata mtime
of whatever exists at the path. -/
def fileMtimeAt (root : FsEntry) (p : List String) : Option Nat :=
  (lookupFs root p).map FsEntry.mtimeOf

/-- Combine an accumulator with a newly found mtime, as the fold body of
`latest_mtime_in_dir` does. -/
def optMaxTime : Option Nat → Nat → Option Nat
  | some curr, ts => some (max curr ts)
  | none, ts => some ts

mutual

/-- Recursion of `latest_mtime_in_dir` over a directory node. -/
def latestMtimeNode : FsEntry → Option Nat
  | .file _ _ => none
  | .dir entries _ => latestMtimeList entries none

/-- The entry loop of `latest_mtime_in_dir` (src/monitor.rs lines
158-182): directories recurse, files contribute their mtime. -/
def latestMtimeList : List (String × FsEntry) → Option Nat → Option Nat
  | [], latest => latest
  | (_, e) :: rest, latest =>
    match e with
    | .dir es m =>
      match latestMtimeNode (.dir es m) with
      | some ts => latestMtimeList rest (optMaxTime latest ts)
      | none => latestMtimeList rest latest
    | .file _ m => latestMtimeList rest (optMaxTime latest m)

end

/-- `latest_mtime_in_dir` at a path: `None` unless the path is a
directory. -/
def latestMtimeInDirAt (root : FsEntry) (p : List String) : Option Nat :=
  match lookupFs root p with
  | some (.dir entries m) => latestMtimeNode (.dir entries m)
  | _ => none

/-! ## Status cache: src/monitor.rs -/

/-- Embeds `CacheSignals` from src/monitor.rs (lines 21-27). -/
structure CacheSignals where
  index_mtime : Option Nat
  head_mtime : Option Nat
  fetch_head_mtime : Option Nat
  remote_refs_mtime : Option Nat
deriving DecidableEq

/-- Embeds `CacheEntry` from src/monitor.rs (lines 14-19); `checked_at`
is an instant in abstract time units. -/
structure CacheEntry where
  signals : CacheSignals
  checked_at : Nat
  status : RepoStatus

/-- The status cache keyed by repo path (`HashMap` modelled as an
association list). -/
def StatusCache : Type := List (List String × CacheEntry)

/-- `HashMap::get`. -/
def cacheGet (cache : StatusCache) (p : List String) : Option CacheEntry :=
  (cache.find? (fun e => e.1 == p)).map (fun e => e.2)

/-- Split a path string on slashes into non-empty components
(`PathBuf::from` on the gitdir target). -/
def splitOnCharAux (sep : Char) : List Char → List Char → List (List Char)
  | [], acc => [acc.reverse]
  | c :: cs, acc =>
    if c = sep then acc.reverse :: splitOnCharAux sep cs []
    else splitOnCharAux sep cs (c :: acc)

/-- Split a character list on a separator. -/
def splitOnChar (sep : Char) (l : List Char) : List (List Char) :=
  splitOnCharAux sep l []

/-- Parse a path string: absolute iff it starts with a slash; components
are the non-empty slash-separated pieces. -/
def parsePathString (rel : List Char) : Bool × List String :=
  (match rel with
    | '/' :: _ => true
    | _ => false,
   ((splitOnChar '/' rel).filter (fun c => !c.isEmpty)).map (fun cs => String.mk cs))

/-- Drop a leading tag from a character list (`str::strip` of a static
tag), or `none` when the tag is not a prefix. -/
def stripLeading (tag l : List Char) : Option (List Char) :=
  if tag.isPrefixOf l then some (l.drop tag.length) else none

/-- Embeds `resolve_git_dir` from src/monitor.rs (lines 140-156): `.git`
as a directory, or the worktree/submodule form where `.git` is a text
file whose first line is `gitdir: <path>` (absolute or repo-relative). -/
def resolve_git_dir (root : FsEntry) (repo : List String) : Option (List String) :=
  let dot_git := repo ++ [".git"]
  if isDirAt root dot_git then some dot_git
  else
    match readToStringAt root dot_git with
    | none => none
    | some raw =>
      match (rustLines raw.data).head? with
      | none => none
      | some line0 =>
        match stripLeading "gitdir:".data (trimChars line0) with
        | none => none
        | some rest =>
          let (absolute, comps) := parsePathString (trimChars rest)
          if absolute then some comps else some (repo ++ comps)

/-- Embeds `read_cache_signals` from src/monitor.rs (lines 125-134). -/
def read_cache_signals (root : FsEntry) (repo : List String) : Option CacheSignals :=
  match resolve_git_dir root repo with
  | none => none
  | some git_dir =>
    some
      { index_mtime := fileMtimeAt root (git_dir ++ ["index"])
        head_mtime := fileMtimeAt root (git_dir ++ ["HEAD"])
        fetch_head_mtime := fileMtimeAt root (git_dir ++ ["FETCH_HEAD"])
        remote_refs_mtime :=
          match latestMtimeInDirAt root (git_dir ++ ["refs", "remotes"]) with
          | some ts => some ts
          | none => fileMtimeAt root (git_dir ++ ["packed-refs"]) }

/-- Embeds `cache_hit` from src/monitor.rs (lines 109-117); `now` is the
current instant, so `entry.checked_at.elapsed() = now - entry.checked_at`. -/
def cache_hit (root : FsEntry) (now : Nat) (path : List String)
    (cache : StatusCache) (max_age : Nat) : Option RepoStatus :=
  match read_cache_signals root path with
  | none => none
  | some signals =>
    match cacheGet cache path with
    | none => none
    | some entry =>
      if now - entry.checked_at ≤ max_age ∧ entry.signals = signals then
        some entry.status
      else none

/-- u64::MAX, the saturation point of `saturating_mul`. -/
def u64max : Nat := 2 ^ 64 - 1

/-- Embeds `stale_after` from src/monitor.rs (lines 119-123):
`refresh_interval_secs.saturating_mul(2).clamp(6, 30)`. -/
def stale_after (refresh_interval_secs : Nat) : Nat :=
  min (max (min (refresh_interval_secs * 2) u64max) 6) 30

/-! ## Scanner: src/scanner.rs -/

/-- The fixed skip set of src/scanner.rs (lines 4-18). -/
def SKIP_DIRS : List String :=
  ["node_modules", ".build", "Pods", "DerivedData", "vendor", "venv", "dist",
   "build", ".next", "target", "__pycache__", ".gradle", ".cache"]

/-- `name.starts_with('.')`. -/
def hiddenName (name : String) : Bool :=
  match name.data with
  | c :: _ => c == '.'
  | [] => false

/-- Whether a directory node contains a `.git` entry (file or directory),
i.e. `dir.join(".git").exists()`. -/
def hasGitEntry : FsEntry → Bool
  | .dir entries _ => (entries.find? (fun e => e.1 == ".git")).isSome
  | .file _ _ => false

/-- The recursion of `scan_dir` (src/scanner.rs lines 37-83) with the
remaining depth budget made explicit as fuel (`fuel = max_depth - depth + 1`
levels may still be visited, so fuel 0 is the `depth > max_depth` cutoff):
a directory containing `.git` is recorded and not descended into;
otherwise non-hidden, non-skip-set subdirectories are scanned in order. -/
def scanDirFuel : Nat → FsEntry → List String → List (List String)
  | 0, _, _ => []
  | Nat.succ fuel, node, path =>
    match node with
    | .file _ _ => []
    | .dir entries _ =>
      if (entries.find? (fun e => e.1 == ".git")).isSome then [path]
      else
        entries.flatMap (fun e =>
          match e.2 with
          | .file _ _ => []
          | .dir es m =>
            if hiddenName e.1 then []
            else if SKIP_DIRS.contains e.1 then []
            else scanDirFuel fuel (.dir es m) (path ++ [e.1]))

/-- Embeds `scan_dir` from src/scanner.rs: cut off when
`depth > max_depth`, else scan with the corresponding budget. -/
def scan_dir (node : FsEntry) (path : List String) (depth max_depth : Nat) :
    List (List String) :=
  if depth > max_depth then [] else scanDirFuel (max_depth - depth + 1) node path

/-- Byte/codepoint comparison of character lists (the order underlying
Rust `str` `Ord`). -/
def charListLtB : List Char → List Char → Bool
  | [], [] => false
  | [], _ :: _ => true
  | _ :: _, [] => false
  | a :: as, b :: bs =>
    if a.toNat < b.toNat then true
    else if b.toNat < a.toNat then false
    else charListLtB as bs

/-- Rust `str::cmp` strict less-than on strings. -/
def strLtB (a b : String) : Bool := charListLtB a.data b.data

/-- Lexicographic comparison of paths, component-wise by string order
(the `Ord` used by `Vec::<PathBuf>::sort`). -/
def pathLeB : List String → List String → Bool
  | [], _ => true
  | _ :: _, [] => false
  | a :: as, b :: bs => if strLtB a b then true else if a = b then pathLeB as bs else false

/-- Adjacent deduplication (`Vec::dedup`): drop each element equal to its
successor run's representative, keeping one element per run. -/
def dedupAdj : List (List String) → List (List String)
  | [] => []
  | a :: t =>
    match t with
    | [] => [a]
    | b :: _ => if a = b then dedupAdj t else a :: dedupAdj t

/-- Embeds `find_repos` from src/scanner.rs (lines 21-35): scan each
existing root directory from depth 0, then sort and deduplicate. -/
def find_repos (root : FsEntry) (directories : List (List String))
    (max_depth : Nat) : List (List String) :=
  let repos := directories.foldl (fun acc dir =>
    if isDirAt root dir then
      match lookupFs root dir with
      | some node => acc ++ scan_dir node dir 0 max_depth
      | none => acc
    else acc) []
  dedupAdj (isortBy pathLeB repos)

/-- Spec-side: the contribution of one configured root directory to the
pre-sort repo list (the loop body of `find_repos`). -/
def rootScan (root : FsEntry) (max_depth : Nat) (dir : List String) :
    List (List String) :=
  if isDirAt root dir then
    match lookupFs root dir with
    | some node => scan_dir node dir 0 max_depth
    | none => []
  else []

/-- Well-formedness of a filesystem tree: entry names are distinct in
every directory (true of every real filesystem; rules out shadowed
duplicate names the model would otherwise admit). -/
inductive WfNames : FsEntry → Prop where
  | file : ∀ c m, WfNames (.file c m)
  | dir : ∀ entries m, (entries.map Prod.fst).Nodup →
      (∀ e ∈ entries, WfNames e.2) → WfNames (.dir entries m)

/-- A repo at `a/b` nested directly under a repo at `a`, plus both paths
given as scan roots: the layout refuting the unrestricted ancestor claim. -/
def exRepoB : FsEntry := .dir [(".git", .dir [] 0)] 0

/-- The outer repo `a`, containing `.git` and the nested repo `b`. -/
def exRepoA : FsEntry := .dir [(".git", .dir [] 0), ("b", exRepoB)] 0

/-- The filesystem root holding `a`. -/
def exFs : FsEntry := .dir [("a", exRepoA)] 0

/-- An empty `.git` directory node. -/
def exGitDir : FsEntry := .dir [] 0

/-- A project directory that is a repository. -/
def exProj : FsEntry := .dir [(".git", exGitDir)] 0

/-- A scan root that is not itself a repository, holding one repo. -/
def exCleanRoot : FsEntry := .dir [("proj", exProj)] 0

/-! ## Action runner: src/actions.rs -/

/-- A subprocess invocation as `actions.rs` issues it: optional working
directory, program name, and a fixed argument array (built with
`tokio::process::Command`, never a shell). -/
structure Cmd where
  current_dir : Option String
  program : String
  args : List String

/-- The observable outcome of a completed subprocess: whether the exit
status was success, plus the decoded output streams. -/
structure CmdOutput where
  success : Bool
  stdout : String
  stderr : String

/-- The ambient world `actions.rs` interacts with, as oracles: what each
spawned command returns (`Except.error e` models `output().await` failing
with io error text `e`), the `.gitignore` contents per repo path and the
outcome of writing them back, whether `.env.example` exists and whether
copying it succeeds, and `PATH` resolution for `CheckBinaryInPath`. -/
structure World where
  exec : Cmd → Except String CmdOutput
  gitignore : String → Option String
  writeGitignore : String → String → Except String Unit
  envExampleExists : String → Bool
  copyEnvExample : String → Except String Unit
  resolveBinary : String → Option String

/-- Embeds `first_line` (src/actions.rs lines 240-247): the first line of
the output, trimmed; empty when there is none. -/
def first_line (s : String) : String :=
  ⟨trimChars ((rustLines s.data).headD [])⟩

/-- Embeds `run_cmd` (src/actions.rs lines 197-214): run one command and
return its result together with the singleton trace of the command that
ran. A spawn failure propagates the io error text; a non-success exit
yields the first stderr line, or `program ++ " failed"` when that line is
empty. -/
def runCmd (w : World) (current_dir : Option String) (program : String)
    (args : List String) : Except String String × List Cmd :=
  let c : Cmd := ⟨current_dir, program, args⟩
  (match w.exec c with
   | .error e => .error e
   | .ok output =>
     if output.success then .ok (first_line output.stdout)
     else
       let detail := first_line output.stderr
       if detail = "" then .error (program ++ " failed") else .error detail,
   [c])

/-- Embeds `run_cmd_owned` (src/actions.rs lines 216-238), whose body is
identical to `run_cmd` up to argument ownership. -/
def runCmdOwned (w : World) (current_dir : Option String) (program : String)
    (args : List String) : Except String String × List Cmd :=
  runCmd w current_dir program args

/-- Embeds `run_git` (src/actions.rs lines 193-195). -/
def run_git (w : World) (repo_path : String) (args : List String) :
    Except String String × List Cmd :=
  runCmd w (some repo_path) "git" args

/-- Sequencing with the `?` operator: on failure the continuation never
runs and the trace stops; on success the traces concatenate. -/
def andThen (x : Except String String × List Cmd)
    (f : String → Except String String × List Cmd) :
    Except String String × List Cmd :=
  match x with
  | (.error e, t) => (.error e, t)
  | (.ok v, t) =>
    let y := f v
    (y.1, t ++ y.2)

/-- Embeds `append_env_pattern_to_gitignore` (src/actions.rs lines
249-263) against the world: a missing `.gitignore` reads as empty
contents (`unwrap_or_default`), a present `.env*` line returns without
writing, and otherwise the appended contents are written back. -/
def append_env_pattern_to_gitignore (w : World) (repo_path : String) :
    Except String Unit :=
  let existing := ((w.gitignore repo_path).getD "").data
  if hasEnvLine existing then .ok ()
  else w.writeGitignore repo_path ⟨append_env_pattern_content existing⟩

/-- Embeds `execute_action` (src/actions.rs lines 116-191), returning the
`Result` together with the trace of subprocess commands actually run, in
order. -/
def execute_action (w : World) : ActionKind → Except String String × List Cmd
  | .GitStatus repo_path => run_git w repo_path ["status", "-sb"]
  | .GitFetch repo_path => run_git w repo_path ["fetch", "--quiet"]
  | .GitPullRebase repo_path => run_git w repo_path ["pull", "--rebase"]
  | .GitPush repo_path => run_git w repo_path ["push"]
  | .GitWorktreeList repo_path => run_git w repo_path ["worktree", "list"]
  | .GitAddCommitPullRebase repo_path message =>
    andThen (run_git w repo_path ["add", "-A"]) (fun _ =>
      andThen (run_git w repo_path ["commit", "-m", message]) (fun _ =>
        run_git w repo_path ["pull", "--rebase"]))
  | .GitPullRebasePush repo_path =>
    andThen (run_git w repo_path ["pull", "--rebase"]) (fun _ =>
      run_git w repo_path ["push"])
  | .GitAddCommitPush repo_path message =>
    andThen (run_git w repo_path ["add", "-A"]) (fun _ =>
      andThen (run_git w repo_path ["commit", "-m", message]) (fun _ =>
        run_git w repo_path ["push"]))
  | .GitAddCommit repo_path message =>
    andThen (run_git w repo_path ["add", "-A"]) (fun _ =>
      run_git w repo_path ["commit", "-m", message])
  | .GitStashList repo_path => run_git w repo_path ["stash", "list"]
  | .GitRemoteList repo_path => run_git w repo_path ["remote", "-v"]
  | .GitSwitchCreate repo_path branch =>
    run_git w repo_path ["switch", "-c", branch]
  | .KillProcess pid => runCmdOwned w none "kill" [toString pid]
  | .NpmInstallLockfile repo_path =>
    runCmd w (some repo_path) "npm" ["install", "--package-lock-only"]
  | .CargoGenerateLockfile repo_path =>
    runCmd w (some repo_path) "cargo" ["generate-lockfile"]
  | .UvLock repo_path => runCmd w (some repo_path) "uv" ["lock"]
  | .PipCompileRequirements repo_path =>
    runCmd w (some repo_path) "pip-compile" ["requirements.txt"]
  | .GoModTidy repo_path => runCmd w (some repo_path) "go" ["mod", "tidy"]
  | .BundleLock repo_path => runCmd w (some repo_path) "bundle" ["lock"]
  | .IgnoreEnvFiles repo_path files =>
    match append_env_pattern_to_gitignore w repo_path with
    | .error e => (.error e, [])
    | .ok _ =>
      if files.isEmpty then (.ok "updated .gitignore", [])
      else runCmdOwned w (some repo_path) "git" (["rm", "--cached", "--"] ++ files)
  | .SeedEnvFromExample repo_path =>
    if w.envExampleExists repo_path then
      match w.copyEnvExample repo_path with
      | .error e => (.error e, [])
      | .ok _ => (.ok "seeded .env from .env.example", [])
    else (.error ".env.example not found", [])
  | .ProbeBinaryHelp binary => runCmd w none binary ["--help"]
  | .CheckBinaryInPath binary =>
    match w.resolveBinary binary with
    | some _ => (.ok ("found " ++ binary), [])
    | none => (.error (binary ++ " not found in PATH"), [])
  | .ShowMessage message => (.ok message, [])

/-- Embeds `success_hint` (src/actions.rs lines 272-284). -/
def success_hint : ActionKind → String
  | .KillProcess _ => "process stopped"
  | .IgnoreEnvFiles _ _ => "secrets protected; review git status"
  | .GitPullRebase _ => "changes applied; status will refresh"
  | .GitPush _ => "changes applied; status will refresh"
  | .GitAddCommit _ _ => "changes applied; status will refresh"
  | .GitAddCommitPush _ _ => "changes applied; status will refresh"
  | .GitAddCommitPullRebase _ _ => "changes applied; status will refresh"
  | .GitPullRebasePush _ => "changes applied; status will refresh"
  | _ => "done"

/-- A channel send observable from `run_action`'s spawned task: a
notification string on `notif_tx` or an `ActionCompletion` on
`completion_tx`. -/
inductive ActionEvent where
  | notif (msg : String)
  | completion (affected_repo_path : Option String)

/-- Embeds `run_action` (src/actions.rs lines 91-114) as the ordered list
of channel sends its task performs. -/
def run_action (w : World) (action : ActionKind) : List ActionEvent :=
  let affected_repo_path := action.affected_repo_path
  let msg :=
    match (execute_action w action).1 with
    | .ok first =>
      if first = "" then "✓  action — done (" ++ success_hint action ++ ")"
      else "✓  action — " ++ first ++ " (" ++ success_hint action ++ ")"
    | .error e => "✗  action — " ++ e ++ " (review and retry)"
  [.notif msg, .completion affected_repo_path]

/-- Running one command, viewed through a `Cmd` record. -/
def cmdRun (w : World) (c : Cmd) : Except String String × List Cmd :=
  runCmd w c.current_dir c.program c.args

/-- The result of one command, without its trace. -/
def cmdResult (w : World) (c : Cmd) : Except String String :=
  (cmdRun w c).1

/-- A placeholder command for `List.getD`. -/
def defaultCmd : Cmd := ⟨none, "", []⟩

/-- The result-and-trace pair `e` runs a prefix of `seq` sequentially and
aborts at the first failure: for some `k`, exactly the commands
`seq[0..k]` ran (in order), every one before the `k`-th succeeded, the
overall result is the `k`-th command's result, and overall success only
happens when every command of `seq` ran. -/
def abortsAtFirstFailure (w : World) (seq : List Cmd)
    (e : Except String String × List Cmd) : Prop :=
  ∃ k, k + 1 ≤ seq.length ∧
    e.2 = seq.take (k + 1) ∧
    (∀ i, i < k → ∃ v, cmdResult w (seq.getD i defaultCmd) = .ok v) ∧
    e.1 = cmdResult w (seq.getD k defaultCmd) ∧
    ((∃ v, e.1 = .ok v) → k + 1 = seq.length)

/-- C1: `recommend` returns the priority of the first matching row of the
spec's fixed first-match decision table, `recommended_action_kind` returns
the `ActionKind` of that same row (`none` for the final `Idle` row), and
therefore the two functions always match the same row. -/
theorem C1_recommend_first_match (repo : Repo) :
    (recommend repo).priority = specPriority repo.status ∧
    recommended_action_kind repo = specKind repo.status repo.path := by
  obtain ⟨path, name, st, lc⟩ := repo
  obtain ⟨br, unc, unp, beh, stash, rem, det⟩ := st
  constructor <;>
  · simp only [recommend, recommended_action_kind, specPriority, specKind, specMatchedRow,
      recommendSpecTable, List.find?]
    cases det <;> by_cases hb : 0 < beh <;> by_cases hu : 0 < unc <;>
      by_cases hp : 0 < unp <;> by_cases hs : 0 < stash <;> cases rem <;>
      simp_all

/-- C3 counterexample: a repo whose only anomaly is a detached HEAD has
`recommend().priority = Critical ≠ Idle` (actionable in the spec's sense),
yet `build_snapshot`'s `actionable_repos` counts it as 0, because the
builder uses `Repo::needs_attention` (counts only). -/
theorem C3_counterexample :
    actionable_repos [detachedOnlyRepo] = 0 ∧
    (recommend detachedOnlyRepo).priority ≠ ActionPriority.Idle := by
  constructor
  · rfl
  · decide

/-- C3 amended: `overview.actionable_repos` equals the number of input
repos with `uncommitted_count > 0` or `unpushed_count > 0` or
`behind_count > 0` (`Repo::needs_attention`); every repo counted this way
is actionable in the spec's sense (`recommend().priority ≠ Idle`), but
repos that are only detached, only stashed, or only missing a remote are
not counted. -/
theorem C3_amended_actionable (repos : List Repo) :
    actionable_repos repos =
      (repos.filter (fun r =>
        decide (0 < r.status.uncommitted_count) || decide (0 < r.status.unpushed_count)
          || decide (0 < r.status.behind_count))).length ∧
    (∀ r : Repo, Repo.needs_attention r = true →
      (recommend r).priority ≠ ActionPriority.Idle) := by
  refine ⟨rfl, ?_⟩
  intro r h
  obtain ⟨path, name, st, lc⟩ := r
  obtain ⟨br, unc, unp, beh, stash, rem, det⟩ := st
  simp only [Repo.needs_attention, Bool.or_eq_true, decide_eq_true_eq] at h
  cases det <;> by_cases hb : 0 < beh <;> by_cases hu : 0 < unc <;>
    by_cases hp : 0 < unp <;> simp_all [recommend]

/-- C3 amended, witnessed at a concrete dirty repo. -/
theorem C3_amended_witness :
    Repo.needs_attention dirtyOnlyRepo = true ∧
    (recommend dirtyOnlyRepo).priority ≠ ActionPriority.Idle :=
  ⟨by decide, (C3_amended_actionable [dirtyOnlyRepo]).2 dirtyOnlyRepo (by decide)⟩

/-! ### Helper lemmas: insertion sort and dedupe -/

theorem mem_insertLeB {α : Type} (le : α → α → Bool) {x z : α} {l : List α}
    (h : z ∈ insertLeB le x l) : z = x ∨ z ∈ l := by
  induction l with
  | nil => simpa [insertLeB] using h
  | cons y t ih =>
    by_cases hxy : le x y = true
    · simpa [insertLeB, hxy] using h
    · simp only [insertLeB, if_neg hxy] at h
      rcases List.mem_cons.mp h with h | h
      · exact Or.inr (by simp [h])
      · rcases ih h with h | h
        · exact Or.inl h
        · exact Or.inr (by simp [h])

theorem insertLeB_perm {α : Type} (le : α → α → Bool) (x : α) (l : List α) :
    List.Perm (insertLeB le x l) (x :: l) := by
  induction l with
  | nil => simp [insertLeB]
  | cons y t ih =>
    by_cases hxy : le x y = true
    · simp [insertLeB, hxy]
    · simp only [insertLeB, if_neg hxy]
      exact (ih.cons y).trans (List.Perm.swap x y t)

theorem isortBy_perm {α : Type} (le : α → α → Bool) (l : List α) :
    List.Perm (isortBy le l) l := by
  induction l with
  | nil => simp [isortBy]
  | cons x t ih =>
    exact (insertLeB_perm le x (isortBy le t)).trans (List.Perm.cons x ih)

theorem pairwise_insertLeB {α : Type} (le : α → α → Bool)
    (htot : ∀ a b, le a b = true ∨ le b a = true)
    (htrans : ∀ a b c, le a b = true → le b c = true → le a c = true)
    {x : α} {l : List α} (h : l.Pairwise (fun a b => le a b = true)) :
    (insertLeB le x l).Pairwise (fun a b => le a b = true) := by
  induction l with
  | nil => simp [insertLeB]
  | cons y t ih =>
    rcases List.pairwise_cons.mp h with ⟨hy, ht⟩
    by_cases hxy : le x y = true
    · simp only [insertLeB, if_pos hxy]
      refine List.pairwise_cons.mpr ⟨?_, h⟩
      intro z hz
      rcases List.mem_cons.mp hz with hz | hz
      · exact hz ▸ hxy
      · exact htrans x y z hxy (hy z hz)
    · simp only [insertLeB, if_neg hxy]
      refine List.pairwise_cons.mpr ⟨?_, ih ht⟩
      intro z hz
      rcases mem_insertLeB le hz with hz | hz
      · rw [hz]
        rcases htot x y with hx | hx
        · exact absurd hx hxy
        · exact hx
      · exact hy z hz

theorem pairwise_isortBy {α : Type} (le : α → α → Bool)
    (htot : ∀ a b, le a b = true ∨ le b a = true)
    (htrans : ∀ a b c, le a b = true → le b c = true → le a c = true)
    (l : List α) :
    (isortBy le l).Pairwise (fun a b => le a b = true) := by
  induction l with
  | nil => simp [isortBy]
  | cons x t ih =>
    simp only [isortBy]
    exact pairwise_insertLeB le htot htrans ih

theorem dedupeAlertsGo_nodup_and_fresh (l : List DashboardAlert) :
    ∀ seen : List String,
      ((dedupeAlertsGo seen l).map alertKey).Nodup ∧
      ∀ a ∈ dedupeAlertsGo seen l, alertKey a ∉ seen := by
  induction l with
  | nil => intro seen; simp [dedupeAlertsGo]
  | cons a t ih =>
    intro seen
    by_cases hk : alertKey a ∈ seen
    · simpa [dedupeAlertsGo, hk] using ih seen
    · have ih' := ih (alertKey a :: seen)
      refine ⟨?_, ?_⟩
      · simp only [dedupeAlertsGo, if_neg hk, List.map_cons, List.nodup_cons]
        refine ⟨?_, ih'.1⟩
        intro hmem
        rcases List.mem_map.mp hmem with ⟨b, hb, hkey⟩
        exact (ih'.2 b hb) (by simp [hkey])
      · intro b hb
        simp only [dedupeAlertsGo, if_neg hk, List.mem_cons] at hb
        rcases hb with hb | hb
        · exact hb ▸ hk
        · have := ih'.2 b hb
          intro hmem
          exact this (List.mem_cons_of_mem _ hmem)

theorem dedupeAlertsGo_sublist (l : List DashboardAlert) :
    ∀ seen : List String, List.Sublist (dedupeAlertsGo seen l) l := by
  induction l with
  | nil => intro seen; simp [dedupeAlertsGo]
  | cons a t ih =>
    intro seen
    by_cases hk : alertKey a ∈ seen
    · simpa [dedupeAlertsGo, hk] using List.Sublist.cons a (ih seen)
    · simpa [dedupeAlertsGo, hk] using List.Sublist.cons₂ a (ih (alertKey a :: seen))

theorem dedupeAlertsGo_covers (l : List DashboardAlert) :
    ∀ seen : List String, ∀ a ∈ l,
      alertKey a ∈ seen ∨ alertKey a ∈ (dedupeAlertsGo seen l).map alertKey := by
  induction l with
  | nil => intro seen a ha; simp at ha
  | cons b t ih =>
    intro seen a ha
    by_cases hk : alertKey b ∈ seen
    · rcases List.mem_cons.mp ha with ha | ha
      · exact Or.inl (ha ▸ hk)
      · simpa [dedupeAlertsGo, hk] using ih seen a ha
    · simp only [dedupeAlertsGo, if_neg hk, List.map_cons]
      rcases List.mem_cons.mp ha with ha | ha
      · exact Or.inr (by simp [ha])
      · rcases ih (alertKey b :: seen) a ha with h | h
        · rcases List.mem_cons.mp h with h | h
          · exact Or.inr (by simp [h])
          · exact Or.inl h
        · exact Or.inr (List.mem_cons_of_mem _ h)

theorem dedupeAlertsGo_first_occurrence (l : List DashboardAlert) :
    ∀ seen : List String, ∀ b ∈ dedupeAlertsGo seen l,
      l.find? (fun x => alertKey x == alertKey b) = some b := by
  induction l with
  | nil => intro seen b hb; simp [dedupeAlertsGo] at hb
  | cons a t ih =>
    intro seen b hb
    by_cases hk : alertKey a ∈ seen
    · simp only [dedupeAlertsGo, if_pos hk] at hb
      have hfresh := (dedupeAlertsGo_nodup_and_fresh t seen).2 b hb
      have hne : ¬((alertKey a == alertKey b) = true) := by
        intro h
        exact hfresh ((beq_iff_eq.mp h) ▸ hk)
      rw [List.find?_cons_of_neg (p := fun x => alertKey x == alertKey b) t hne]
      exact ih seen b hb
    · simp only [dedupeAlertsGo, if_neg hk, List.mem_cons] at hb
      rcases hb with hb | hb
      · subst hb
        exact List.find?_cons_of_pos (p := fun x => alertKey x == alertKey b) t (by simp)
      · have hfresh := (dedupeAlertsGo_nodup_and_fresh t (alertKey a :: seen)).2 b hb
        have hne : ¬((alertKey a == alertKey b) = true) := by
          intro h
          exact hfresh ((beq_iff_eq.mp h) ▸ List.mem_cons_self _ _)
        rw [List.find?_cons_of_neg (p := fun x => alertKey x == alertKey b) t hne]
        exact ih (alertKey a :: seen) b hb

theorem Ordering_lt_then (c : Ordering) : Ordering.lt.then c = .lt := rfl

theorem Ordering_eq_then (c : Ordering) : Ordering.eq.then c = c := rfl

theorem Ordering_gt_then (c : Ordering) : Ordering.gt.then c = .gt := rfl

theorem boolCompare_eq_lt : ∀ x y : Bool, (compare x y = Ordering.lt ↔ x < y) := by decide

theorem boolCompare_eq_eq : ∀ x y : Bool, (compare x y = Ordering.eq ↔ x = y) := by decide

theorem boolCompare_eq_gt : ∀ x y : Bool, (compare x y = Ordering.gt ↔ y < x) := by decide

theorem strCmp_ne_gt {s t : String} : strCmp s t ≠ .gt ↔ s ≤ t := by
  unfold strCmp
  rcases lt_trichotomy s t with h | h | h
  · simp [h, le_of_lt h]
  · subst h
    simp
  · have h1 : ¬s < t := not_lt_of_gt h
    have h2 : s ≠ t := ne_of_gt h
    simp [h1, h2, not_le_of_gt h]

theorem alertLeB_iff (a b : DashboardAlert) : alertLeB a b = true ↔ specAlertLe a b := by
  unfold alertLeB specAlertLe alertOrdering
  simp only [decide_eq_true_eq]
  cases hc1 : compare (severity_rank b.severity) (severity_rank a.severity) with
  | lt =>
    have h1 := Nat.compare_eq_lt.mp hc1
    rw [Ordering_lt_then, Ordering_lt_then]
    simp [h1]
  | eq =>
    have h1 := Nat.compare_eq_eq.mp hc1
    rw [Ordering_eq_then]
    cases hc2 : compare b.action.isSome a.action.isSome with
    | lt =>
      have h2 := (boolCompare_eq_lt _ _).mp hc2
      rw [Ordering_lt_then]
      simp [h1, h2]
    | eq =>
      have h2 := (boolCompare_eq_eq _ _).mp hc2
      rw [Ordering_eq_then]
      constructor
      · intro h3
        exact Or.inr ⟨h1.symm, Or.inr ⟨h2, strCmp_ne_gt.mp h3⟩⟩
      · intro h3
        rcases h3 with h3 | ⟨h3e, h3i⟩
        · exact absurd h3 (by simp [h1])
        · rcases h3i with h3i | ⟨h3b, h3t⟩
          · exact absurd h3i (by simp [h2])
          · exact strCmp_ne_gt.mpr h3t
    | gt =>
      have h2 := (boolCompare_eq_gt _ _).mp hc2
      rw [Ordering_gt_then]
      simp [h1, lt_asymm h2, h2.ne']
  | gt =>
    have h1 := Nat.compare_eq_gt.mp hc1
    rw [Ordering_gt_then, Ordering_gt_then]
    simp [lt_asymm h1, h1.ne]

theorem specAlertLe_total (a b : DashboardAlert) : specAlertLe a b ∨ specAlertLe b a := by
  unfold specAlertLe
  rcases lt_trichotomy (severity_rank a.severity) (severity_rank b.severity) with h | h | h
  · exact Or.inr (Or.inl h)
  · rcases lt_trichotomy a.action.isSome b.action.isSome with h2 | h2 | h2
    · exact Or.inr (Or.inr ⟨h.symm, Or.inl h2⟩)
    · rcases le_total a.title b.title with h3 | h3
      · exact Or.inl (Or.inr ⟨h, Or.inr ⟨h2.symm, h3⟩⟩)
      · exact Or.inr (Or.inr ⟨h.symm, Or.inr ⟨h2, h3⟩⟩)
    · exact Or.inl (Or.inr ⟨h, Or.inl h2⟩)
  · exact Or.inl (Or.inl h)

theorem specAlertLe_trans (a b c : DashboardAlert)
    (h1 : specAlertLe a b) (h2 : specAlertLe b c) : specAlertLe a c := by
  unfold specAlertLe at h1 h2 ⊢
  rcases h1 with h1 | ⟨h1e, h1i⟩
  · rcases h2 with h2 | ⟨h2e, h2i⟩
    · exact Or.inl (lt_trans h2 h1)
    · exact Or.inl (h2e ▸ h1)
  · rcases h2 with h2 | ⟨h2e, h2i⟩
    · refine Or.inl ?_
      rw [h1e]
      exact h2
    · refine Or.inr ⟨h1e.trans h2e, ?_⟩
      rcases h1i with h1i | ⟨h1b, h1t⟩
      · rcases h2i with h2i | ⟨h2b, h2t⟩
        · exact Or.inl (lt_trans h2i h1i)
        · refine Or.inl ?_
          rw [h2b]
          exact h1i
      · rcases h2i with h2i | ⟨h2b, h2t⟩
        · refine Or.inl ?_
          rw [← h1b]
          exact h2i
        · exact Or.inr ⟨h2b.trans h1b, le_trans h1t h2t⟩

theorem alertLeB_total (a b : DashboardAlert) :
    alertLeB a b = true ∨ alertLeB b a = true := by
  rcases specAlertLe_total a b with h | h
  · exact Or.inl ((alertLeB_iff a b).mpr h)
  · exact Or.inr ((alertLeB_iff b a).mpr h)

theorem alertLeB_trans (a b c : DashboardAlert)
    (h1 : alertLeB a b = true) (h2 : alertLeB b c = true) : alertLeB a c = true :=
  (alertLeB_iff a c).mpr
    (specAlertLe_trans a b c ((alertLeB_iff a b).mp h1) ((alertLeB_iff b c).mp h2))

/-- C7: `build_snapshot`'s alert pipeline first removes duplicates keeping
the first occurrence of each composite key `severity|title|detail|repo`
(so the deduped list's keys are pairwise distinct, the result is a
subsequence of the input covering every input key, and each survivor is the
first element of the input with its key), then sorts by severity rank
descending (critical > high > warn > info, unknown lowest, as encoded by
`severity_rank`), then action presence descending, then title ascending,
and finally truncates to at most 120 entries. -/
theorem C7_alert_dedupe_sort_truncate (alerts : List DashboardAlert) :
    ((dedupe_alerts alerts).map alertKey).Nodup ∧
    List.Sublist (dedupe_alerts alerts) alerts ∧
    (∀ a ∈ alerts, alertKey a ∈ (dedupe_alerts alerts).map alertKey) ∧
    (∀ b ∈ dedupe_alerts alerts,
      alerts.find? (fun x => alertKey x == alertKey b) = some b) ∧
    List.Perm (isortBy alertLeB (dedupe_alerts alerts)) (dedupe_alerts alerts) ∧
    (isortBy alertLeB (dedupe_alerts alerts)).Pairwise specAlertLe ∧
    processAlerts alerts = (isortBy alertLeB (dedupe_alerts alerts)).take 120 ∧
    (processAlerts alerts).length ≤ 120 ∧
    severity_rank "critical" = 4 ∧ severity_rank "high" = 3 ∧
    severity_rank "warn" = 2 ∧ severity_rank "info" = 1 := by
  refine ⟨(dedupeAlertsGo_nodup_and_fresh alerts []).1,
    dedupeAlertsGo_sublist alerts [],
    ?_,
    dedupeAlertsGo_first_occurrence alerts [],
    isortBy_perm _ _,
    ?_,
    rfl,
    ?_, rfl, rfl, rfl, rfl⟩
  · intro a ha
    rcases dedupeAlertsGo_covers alerts [] a ha with h | h
    · simp at h
    · exact h
  · exact (pairwise_isortBy alertLeB alertLeB_total alertLeB_trans _).imp
      (fun h => (alertLeB_iff _ _).mp h)
  · show ((isortBy alertLeB (dedupe_alerts alerts)).take 120).length ≤ 120
    rw [List.length_take]
    exact min_le_left _ _

/-- C7, witnessed on a concrete duplicated alert list. -/
theorem C7_witness :
    ((dedupe_alerts [alertA, alertA]).map alertKey).Nodup ∧
    [alertA, alertA].find? (fun x => alertKey x == alertKey alertA) = some alertA := by
  have h := C7_alert_dedupe_sort_truncate [alertA, alertA]
  exact ⟨h.1, h.2.2.2.1 alertA (by decide)⟩

theorem read_env_u64_default (env : Env) (key : String) (d : Nat)
    (h : env key = none ∨
      ∃ s, env key = some s ∧ (parseU64 s = none ∨ parseU64 s = some 0)) :
    read_env_u64 env key d = d := by
  unfold read_env_u64
  rcases h with h | ⟨s, hs, h⟩
  · simp [h]
  · rcases h with h | h <;> simp [hs, h, Option.filter]

theorem read_env_usize_default (env : Env) (key : String) (d : Nat)
    (h : env key = none ∨
      ∃ s, env key = some s ∧ (parseU64 s = none ∨ parseU64 s = some 0)) :
    read_env_usize env key d = d := by
  unfold read_env_usize
  rcases h with h | ⟨s, hs, h⟩
  · simp [h]
  · rcases h with h | h <;> simp [hs, h, Option.filter]

/-- C10: each tuning knob falls back to its default — cache TTL 60 s,
HTTP timeout 8 s, page cap 6 — whenever its environment variable is
unset, fails to parse as an integer, or parses to 0; in particular a page
cap of "0" means 6 pages, not unlimited paging. -/
theorem C10_env_knob_defaults (env : Env) :
    ((env "AGENTPULSE_PROVIDER_CACHE_SECS" = none ∨
      ∃ s, env "AGENTPULSE_PROVIDER_CACHE_SECS" = some s ∧
        (parseU64 s = none ∨ parseU64 s = some 0)) →
      providerCacheSecs env = 60) ∧
    ((env "AGENTPULSE_PROVIDER_TIMEOUT_SECS" = none ∨
      ∃ s, env "AGENTPULSE_PROVIDER_TIMEOUT_SECS" = some s ∧
        (parseU64 s = none ∨ parseU64 s = some 0)) →
      providerTimeoutSecs env = 8) ∧
    ((env "AGENTPULSE_PROVIDER_MAX_PAGES" = none ∨
      ∃ s, env "AGENTPULSE_PROVIDER_MAX_PAGES" = some s ∧
        (parseU64 s = none ∨ parseU64 s = some 0)) →
      providerMaxPages env = 6) :=
  ⟨fun h => read_env_u64_default env _ 60 h,
   fun h => read_env_u64_default env _ 8 h,
   fun h => read_env_usize_default env _ 6 h⟩

/-- C10 witnessed: all three knobs at defaults with variables unset, and
the page cap at 6 when the variable is the string 0. -/
theorem C10_witness :
    providerCacheSecs envUnset = 60 ∧ providerTimeoutSecs envUnset = 8 ∧
    providerMaxPages envUnset = 6 ∧ providerMaxPages envMaxPagesZero = 6 :=
  ⟨(C10_env_knob_defaults envUnset).1 (Or.inl rfl),
   (C10_env_knob_defaults envUnset).2.1 (Or.inl rfl),
   (C10_env_knob_defaults envUnset).2.2 (Or.inl rfl),
   (C10_env_knob_defaults envMaxPagesZero).2.2 (Or.inr ⟨"0", rfl, Or.inr rfl⟩)⟩

theorem foldl_eq_add_sum {α : Type} (step : ℚ → α → ℚ) (f : α → ℚ)
    (hstep : ∀ c x, step c x = c + f x) :
    ∀ (l : List α) (c : ℚ), l.foldl step c = c + (l.map f).sum := by
  intro l
  induction l with
  | nil => intro c; simp
  | cons x t ih =>
    intro c
    rw [List.foldl_cons, hstep, ih, List.map_cons, List.sum_cons, add_assoc]

theorem accumulate_openai_cost_eq (v : Json) (c : ℚ) :
    accumulate_openai_cost v c = c + openaiPageCost v := by
  unfold accumulate_openai_cost openaiPageCost
  cases hv : (v.get "data").bind Json.as_array with
  | none => simp
  | some buckets =>
    simp only [Option.getD_some]
    refine foldl_eq_add_sum _ _ ?_ buckets c
    intro c bucket
    cases hb : (bucket.get "results").bind Json.as_array with
    | none => simp
    | some results =>
      simp only [Option.getD_some]
      refine foldl_eq_add_sum _ _ ?_ results c
      intro c result
      unfold openaiResultAmount
      cases ha : result.get "amount" with
      | none => simp [ha]
      | some j =>
        cases j <;> simp only [ha]
        case obj fields =>
          cases hval : (Json.obj fields).get "value" <;> simp [hval]
        all_goals simp

theorem accumulate_claude_cost_eq (v : Json) (c : ℚ) :
    accumulate_claude_cost v c = c + claudePageCost v := by
  unfold accumulate_claude_cost claudePageCost
  cases hv : (v.get "data").bind Json.as_array with
  | none => simp
  | some buckets =>
    simp only [Option.getD_some]
    refine foldl_eq_add_sum _ _ ?_ buckets c
    intro c bucket
    cases hb : (bucket.get "results").bind Json.as_array with
    | none => simp
    | some results =>
      simp only [Option.getD_some]
      refine foldl_eq_add_sum _ _ ?_ results c
      intro c result
      unfold claudeResultAmount
      cases ha : result.get "amount" <;> simp [ha]

/-- C8: live OpenAI cost is the sum over all fetched pages and results of
`result.amount.value`; live Anthropic cost is the same sum with each
amount (in cents) divided by 100; and when no live data overlays and the
explicit local cost is 0, the cost is the token heuristic
`in/1e6·P_in + out/1e6·P_out` with prices (3, 15) for Claude, (1.25, 5)
for Gemini, and (5, 15) for OpenAI (USD per million tokens). -/
theorem C8_provider_cost_math :
    (∀ pages : List Json,
      pages.foldl (fun c v => accumulate_openai_cost v c) 0 =
        (pages.map openaiPageCost).sum) ∧
    (∀ pages : List Json,
      pages.foldl (fun c v => accumulate_claude_cost v c) 0 =
        (pages.map claudePageCost).sum) ∧
    (∀ (input_tokens output_tokens : Nat) (p_in p_out : ℚ),
      local_estimated_cost 0 (estimated_from_tokens input_tokens output_tokens p_in p_out) =
        ((input_tokens : ℚ) / 1000000) * p_in + ((output_tokens : ℚ) / 1000000) * p_out) ∧
    providerPrices .Claude = (3, 15) ∧
    providerPrices .Gemini = (1.25, 5) ∧
    providerPrices .OpenAi = (5, 15) := by
  refine ⟨?_, ?_, ?_, rfl, rfl, rfl⟩
  · intro pages
    rw [foldl_eq_add_sum _ openaiPageCost (fun c v => accumulate_openai_cost_eq v c) pages 0,
      zero_add]
  · intro pages
    rw [foldl_eq_add_sum _ claudePageCost (fun c v => accumulate_claude_cost_eq v c) pages 0,
      zero_add]
  · intro input_tokens output_tokens p_in p_out
    simp [local_estimated_cost, estimated_from_tokens]

/-- C9: for every provider, environment, local-scan outcome, and live
oracle, the `ProviderUsage` source fields satisfy
`data_source = "unconfigured"` iff `configured = false`; in particular the
live overlay never fires for an unconfigured provider (its fetch gates on
env keys that are a subset of the provider's configuring keys), and a
configured provider reports one of `live`, `local_logs`, `heuristic`. -/
theorem C9_unconfigured_iff (p : ProviderKind) (env : Env)
    (localIn : LocalUsageInput) (o : LiveOracle) :
    ((collect_provider_source p env localIn o).2 = "unconfigured" ↔
      (collect_provider_source p env localIn o).1 = false) ∧
    ((collect_provider_source p env localIn o).1 = true →
      (collect_provider_source p env localIn o).2 = "live" ∨
      (collect_provider_source p env localIn o).2 = "local_logs" ∨
      (collect_provider_source p env localIn o).2 = "heuristic") := by
  by_cases henv : (provider_env_keys p).any (fun k => (env k).isSome) = true
  · cases hres : provider_live_fetch p env o with
    | ok od =>
      cases od with
      | some d => simp [collect_provider_source, hres, henv]
      | none =>
        cases hlog : localIn.parsedAnyLog <;>
        cases hsupp : (provider_supplementary_applies p && localIn.supplementary) <;>
        simp [collect_provider_source, hres, henv, hlog, hsupp]
    | error e =>
      cases hlog : localIn.parsedAnyLog <;>
      cases hsupp : (provider_supplementary_applies p && localIn.supplementary) <;>
      simp [collect_provider_source, hres, henv, hlog, hsupp]
  · have henv' : (provider_env_keys p).any (fun k => (env k).isSome) = false :=
      Bool.eq_false_iff.mpr henv
    have hkeys : ∀ k ∈ provider_env_keys p, env k = none := by
      intro k hk
      have h := List.any_eq_false.mp henv' k hk
      exact Option.not_isSome_iff_eq_none.mp (by simpa using h)
    have hfetch : provider_live_fetch p env o = .ok none := by
      cases p with
      | Claude =>
        have h1 : env "ANTHROPIC_ADMIN_API_KEY" = none :=
          hkeys _ (by simp [provider_env_keys])
        have h2 : env "ANTHROPIC_API_KEY" = none :=
          hkeys _ (by simp [provider_env_keys])
        simp [provider_live_fetch, fetch_claude_live_data, first_env_value, h1, h2]
      | Gemini =>
        have h1 : env "AGENTPULSE_GEMINI_BQ_TABLE" = none :=
          hkeys _ (by simp [provider_env_keys])
        simp [provider_live_fetch, fetch_gemini_live_data, h1]
      | OpenAi =>
        have h1 : env "OPENAI_ADMIN_KEY" = none :=
          hkeys _ (by simp [provider_env_keys])
        have h2 : env "OPENAI_API_KEY" = none :=
          hkeys _ (by simp [provider_env_keys])
        simp [provider_live_fetch, fetch_openai_live_data, first_env_value, h1, h2]
    cases hroots : localIn.rootsExist.any id <;>
    cases hsupp : (provider_supplementary_applies p && localIn.supplementary) <;>
    cases hlog : localIn.parsedAnyLog <;>
    simp [collect_provider_source, hfetch, henv', hroots, hsupp, hlog]

/-- C9 witnessed: OpenAI with only `OPENAI_API_KEY` set, empty disk and a
failing network is configured and reports a non-unconfigured source. -/
theorem C9_witness :
    (collect_provider_source .OpenAi envWithOpenAiKey localInNone oracleErr).1 = true ∧
    ((collect_provider_source .OpenAi envWithOpenAiKey localInNone oracleErr).2 = "live" ∨
     (collect_provider_source .OpenAi envWithOpenAiKey localInNone oracleErr).2 = "local_logs" ∨
     (collect_provider_source .OpenAi envWithOpenAiKey localInNone oracleErr).2 = "heuristic") := by
  have h := C9_unconfigured_iff .OpenAi envWithOpenAiKey localInNone oracleErr
  exact ⟨by decide, h.2 (by decide)⟩

/-! ### Helper lemmas: gitignore line handling -/

theorem linesAux_nil (acc : List Char) :
    linesAux [] acc = if acc.isEmpty then [] else [acc.reverse] := rfl

theorem linesAux_cons (c : Char) (cs acc : List Char) :
    linesAux (c :: cs) acc =
      if c = '\n' then stripTrailingCR acc.reverse :: linesAux cs []
      else linesAux cs (c :: acc) := rfl

theorem trimChars_append_cr (x : List Char) : trimChars (x ++ ['\r']) = trimChars x := by
  unfold trimChars
  rw [List.dropWhile_append]
  by_cases hx : (x.dropWhile Char.isWhitespace).isEmpty
  · have hx' : x.dropWhile Char.isWhitespace = [] := by simpa using hx
    rw [if_pos hx, hx']
    decide
  · rw [if_neg hx, List.reverse_append]
    have hws : Char.isWhitespace '\r' = true := by decide
    simp [hws]

theorem trimChars_stripTrailingCR (l : List Char) :
    trimChars (stripTrailingCR l) = trimChars l := by
  unfold stripTrailingCR
  by_cases h : l.getLast? = some '\r'
  · rw [if_pos h]
    obtain ⟨x, rfl⟩ := List.getLast?_eq_some_iff.mp h
    rw [List.dropLast_concat, trimChars_append_cr]
  · rw [if_neg h]

theorem linesAux_append (a : List Char) (h : a.getLast? = some '\n') :
    ∀ (acc tail : List Char),
      linesAux (a ++ tail) acc = linesAux a acc ++ linesAux tail [] := by
  induction a with
  | nil => simp at h
  | cons c cs ih =>
    intro acc tail
    cases cs with
    | nil =>
      have hc : c = '\n' := by simpa using h
      subst hc
      rw [List.cons_append, List.nil_append, linesAux_cons, linesAux_cons,
        if_pos rfl, if_pos rfl, linesAux_nil]
      simp
    | cons d ds =>
      have h' : (d :: ds).getLast? = some '\n' := by
        rw [List.getLast?_cons_cons] at h
        exact h
      by_cases hc : c = '\n'
      · subst hc
        rw [List.cons_append, linesAux_cons, linesAux_cons, if_pos rfl, if_pos rfl,
          ih h' [] tail, List.cons_append]
      · rw [List.cons_append, linesAux_cons, linesAux_cons, if_neg hc, if_neg hc,
          ih h' (c :: acc) tail]

theorem linesAux_snoc_newline_count (P : List Char → Bool)
    (hP : ∀ l, P (stripTrailingCR l) = P l) (hPnil : P [] = false) :
    ∀ (a acc : List Char),
      ((linesAux (a ++ ['\n']) acc).filter P).length =
        ((linesAux a acc).filter P).length := by
  intro a
  induction a with
  | nil =>
    intro acc
    rw [List.nil_append, linesAux_cons, if_pos rfl, linesAux_nil, linesAux_nil]
    cases acc with
    | nil =>
      have hs : stripTrailingCR ([] : List Char) = [] := by decide
      simp [hs, hPnil]
    | cons x xs =>
      simp only [List.isEmpty_cons, List.isEmpty_nil, Bool.false_eq_true, ite_false,
        ite_true, List.filter_cons, hP]
      cases hPx : P (x :: xs).reverse <;> simp [hPx]
  | cons c cs ih =>
    intro acc
    by_cases hc : c = '\n'
    · subst hc
      rw [List.cons_append, linesAux_cons, linesAux_cons, if_pos rfl, if_pos rfl]
      simp only [List.filter_cons]
      cases hPh : P (stripTrailingCR acc.reverse) <;> simp [hPh, ih []]
    · rw [List.cons_append, linesAux_cons, linesAux_cons, if_neg hc, if_neg hc]
      exact ih (c :: acc)

theorem countTrimEnv_snoc_newline (c : List Char) :
    countTrimEnv (c ++ ['\n']) = countTrimEnv c := by
  unfold countTrimEnv rustLines
  exact linesAux_snoc_newline_count _
    (fun l => by rw [trimChars_stripTrailingCR]) (by decide) c []

theorem rustLines_append_env (u : List Char) (h : u = [] ∨ u.getLast? = some '\n') :
    rustLines (u ++ (".env*".data ++ ['\n'])) = rustLines u ++ [".env*".data] := by
  have htail : linesAux (".env*".data ++ ['\n']) [] = [".env*".data] := by decide
  rcases h with h | h
  · subst h
    rw [List.nil_append]
    unfold rustLines
    rw [htail, linesAux_nil]
    rfl
  · unfold rustLines
    rw [linesAux_append u h [] (".env*".data ++ ['\n']), htail]

theorem count_append_env (u : List Char) (h : u = [] ∨ u.getLast? = some '\n') :
    countTrimEnv (u ++ (".env*".data ++ ['\n'])) = countTrimEnv u + 1 ∧
    countExactEnv (u ++ (".env*".data ++ ['\n'])) = countExactEnv u + 1 := by
  have hl := rustLines_append_env u h
  have h1 : (([".env*".data]).filter (fun l => trimChars l == ".env*".data)).length = 1 := by
    decide
  have h2 : (([".env*".data]).filter (fun l => l == ".env*".data)).length = 1 := by
    decide
  unfold countTrimEnv countExactEnv
  rw [hl, List.filter_append, List.length_append, List.filter_append, List.length_append,
    h1, h2]
  exact ⟨rfl, rfl⟩

theorem countTrimEnv_eq_zero (c : List Char) (h : hasEnvLine c = false) :
    countTrimEnv c = 0 := by
  unfold hasEnvLine at h
  unfold countTrimEnv
  rw [List.length_eq_zero, List.filter_eq_nil_iff]
  exact List.any_eq_false.mp h

theorem countExactEnv_eq_zero (c : List Char) (h : countTrimEnv c = 0) :
    countExactEnv c = 0 := by
  unfold countTrimEnv at h
  rw [List.length_eq_zero, List.filter_eq_nil_iff] at h
  unfold countExactEnv
  rw [List.length_eq_zero, List.filter_eq_nil_iff]
  intro l hl hbeq
  refine h l hl ?_
  have : l = ".env*".data := by simpa using hbeq
  subst this
  decide

theorem hasEnvLine_of_pos (c : List Char) (h : 0 < countTrimEnv c) :
    hasEnvLine c = true := by
  unfold countTrimEnv at h
  obtain ⟨l, hl⟩ := List.exists_mem_of_length_pos h
  rcases List.mem_filter.mp hl with ⟨hmem, hP⟩
  unfold hasEnvLine
  exact List.any_eq_true.mpr ⟨l, hmem, hP⟩

theorem append_env_noop (c : List Char) (h : hasEnvLine c = true) :
    append_env_pattern_content c = c := by
  unfold append_env_pattern_content
  rw [if_pos h]

/-- C6: the gitignore step of `IgnoreEnvFiles` is idempotent: starting
from contents with no line trimming to `.env*` (a missing file reads as
empty), two runs leave exactly one line equal to `.env*` (and exactly one
line trimming to it); contents that already have such a line are returned
byte-for-byte unchanged. -/
theorem C6_gitignore_idempotent (existing : List Char) :
    (hasEnvLine existing = false →
      countTrimEnv (append_env_pattern_content (append_env_pattern_content existing)) = 1 ∧
      countExactEnv (append_env_pattern_content (append_env_pattern_content existing)) = 1) ∧
    (hasEnvLine existing = true → append_env_pattern_content existing = existing) := by
  constructor
  · intro h0
    have hcnt0 : countTrimEnv existing = 0 := countTrimEnv_eq_zero existing h0
    by_cases hcase : existing ≠ [] ∧ existing.getLast? ≠ some '\n'
    · have hfirst : append_env_pattern_content existing =
          (existing ++ ['\n']) ++ (".env*".data ++ ['\n']) := by
        unfold append_env_pattern_content
        rw [if_neg (by simp [h0]), if_pos hcase]
      have hu_ok : existing ++ ['\n'] = [] ∨ (existing ++ ['\n']).getLast? = some '\n' :=
        Or.inr (List.getLast?_concat existing)
      have hcu : countTrimEnv (existing ++ ['\n']) = 0 := by
        rw [countTrimEnv_snoc_newline]
        exact hcnt0
      have hc1 := count_append_env (existing ++ ['\n']) hu_ok
      have htrim1 : countTrimEnv (append_env_pattern_content existing) = 1 := by
        rw [hfirst, hc1.1, hcu]
      have hexact1 : countExactEnv (append_env_pattern_content existing) = 1 := by
        rw [hfirst, hc1.2, countExactEnv_eq_zero _ hcu]
      have hsecond : append_env_pattern_content (append_env_pattern_content existing) =
          append_env_pattern_content existing :=
        append_env_noop _ (hasEnvLine_of_pos _ (by rw [htrim1]; exact Nat.one_pos))
      rw [hsecond]
      exact ⟨htrim1, hexact1⟩
    · have hfirst : append_env_pattern_content existing =
          existing ++ (".env*".data ++ ['\n']) := by
        unfold append_env_pattern_content
        rw [if_neg (by simp [h0]), if_neg hcase]
      have hu_ok : existing = [] ∨ existing.getLast? = some '\n' := by
        push_neg at hcase
        by_cases hnil : existing = []
        · exact Or.inl hnil
        · exact Or.inr (hcase hnil)
      have hc1 := count_append_env existing hu_ok
      have htrim1 : countTrimEnv (append_env_pattern_content existing) = 1 := by
        rw [hfirst, hc1.1, hcnt0]
      have hexact1 : countExactEnv (append_env_pattern_content existing) = 1 := by
        rw [hfirst, hc1.2, countExactEnv_eq_zero _ hcnt0]
      have hsecond : append_env_pattern_content (append_env_pattern_content existing) =
          append_env_pattern_content existing :=
        append_env_noop _ (hasEnvLine_of_pos _ (by rw [htrim1]; exact Nat.one_pos))
      rw [hsecond]
      exact ⟨htrim1, hexact1⟩
  · intro h
    exact append_env_noop existing h

/-- C6 witnessed on concrete contents: `target/` gains exactly one
`.env*` line after two runs, and contents already containing `.env*` are
unchanged. -/
theorem C6_witness :
    (countTrimEnv (append_env_pattern_content (append_env_pattern_content
      ("target/\n".data))) = 1 ∧
     countExactEnv (append_env_pattern_content (append_env_pattern_content
      ("target/\n".data))) = 1) ∧
    append_env_pattern_content (".env*\n".data) = ".env*\n".data :=
  ⟨⟨((C6_gitignore_idempotent ("target/\n".data)).1 (by decide)).1,
    ((C6_gitignore_idempotent ("target/\n".data)).1 (by decide)).2⟩,
   (C6_gitignore_idempotent (".env*\n".data)).2 (by decide)⟩

/-- C2: `cache_hit` returns `some status` iff the repo's signals can be
freshly read (via `resolve_git_dir`, including the `gitdir:` file form),
a cache entry exists for the path, the entry's age is at most the TTL,
and the fresh signals equal the stored ones — otherwise `none`; and the
TTL `stale_after` used by `scan_all` equals
`clamp(2·refresh_interval_secs, 6, 30)`, hence lies in [6, 30] for every
refresh interval, including 0. -/
theorem C2_cache_hit_iff :
    (∀ (root : FsEntry) (now : Nat) (path : List String) (cache : StatusCache)
        (ttl : Nat) (st : RepoStatus),
      cache_hit root now path cache ttl = some st ↔
        ∃ sig, read_cache_signals root path = some sig ∧
          ∃ entry, cacheGet cache path = some entry ∧
            now - entry.checked_at ≤ ttl ∧ entry.signals = sig ∧ entry.status = st) ∧
    (∀ r : Nat, stale_after r = min (max (r * 2) 6) 30 ∧
      6 ≤ stale_after r ∧ stale_after r ≤ 30) := by
  constructor
  · intro root now path cache ttl st
    unfold cache_hit
    cases h1 : read_cache_signals root path with
    | none => simp
    | some sig =>
      cases h2 : cacheGet cache path with
      | none => simp
      | some entry =>
        by_cases h3 : now - entry.checked_at ≤ ttl ∧ entry.signals = sig
        · simp only [if_pos h3]
          constructor
          · intro h
            exact ⟨sig, rfl, entry, rfl, h3.1, h3.2, Option.some_inj.mp h⟩
          · rintro ⟨sig', hsig', entry', hentry', _, _, hst⟩
            rw [Option.some_inj.mp hentry', hst]
        · simp only [if_neg h3]
          constructor
          · intro h
            cases h
          · rintro ⟨sig', hsig', entry', hentry', hle, hsigeq, _⟩
            have he := Option.some_inj.mp hentry'
            have hs := Option.some_inj.mp hsig'
            refine absurd ⟨?_, ?_⟩ h3
            · rw [he]
              exact hle
            · rw [he, hs]
              exact hsigeq
  · intro r
    unfold stale_after u64max
    refine ⟨?_, ?_, ?_⟩ <;> omega

/-! ### Helper lemmas: path order, dedup, and the scanner -/

theorem charListLtB_cons (a b : Char) (as bs : List Char) :
    charListLtB (a :: as) (b :: bs) =
      if a.toNat < b.toNat then true
      else if b.toNat < a.toNat then false
      else charListLtB as bs := rfl

theorem charListLtB_irrefl : ∀ l : List Char, charListLtB l l = false := by
  intro l
  induction l with
  | nil => rfl
  | cons a as ih =>
    rw [charListLtB_cons, if_neg (lt_irrefl _), if_neg (lt_irrefl _)]
    exact ih

theorem charListLtB_asymm : ∀ a b : List Char,
    charListLtB a b = true → charListLtB b a = false := by
  intro a
  induction a with
  | nil =>
    intro b h
    cases b with
    | nil => exact absurd h (by simp [charListLtB])
    | cons y ys => rfl
  | cons x xs ih =>
    intro b h
    cases b with
    | nil => exact absurd h (by simp [charListLtB])
    | cons y ys =>
      rw [charListLtB_cons] at h
      rw [charListLtB_cons]
      by_cases h1 : x.toNat < y.toNat
      · rw [if_neg (by omega), if_pos h1]
      · by_cases h2 : y.toNat < x.toNat
        · rw [if_neg h1, if_pos h2] at h
          exact absurd h (by simp)
        · rw [if_neg h1, if_neg h2] at h
          rw [if_neg h2, if_neg h1]
          exact ih ys h

theorem charListLtB_trans : ∀ a b c : List Char,
    charListLtB a b = true → charListLtB b c = true → charListLtB a c = true := by
  intro a
  induction a with
  | nil =>
    intro b c hab hbc
    cases c with
    | nil =>
      cases b with
      | nil => exact absurd hab (by simp [charListLtB])
      | cons y ys => exact absurd hbc (by simp [charListLtB])
    | cons z zs => rfl
  | cons x xs ih =>
    intro b c hab hbc
    cases b with
    | nil => exact absurd hab (by simp [charListLtB])
    | cons y ys =>
      cases c with
      | nil => exact absurd hbc (by simp [charListLtB])
      | cons z zs =>
        rw [charListLtB_cons] at hab hbc ⊢
        by_cases h1 : x.toNat < y.toNat
        · by_cases h2 : y.toNat < z.toNat
          · rw [if_pos (by omega)]
          · by_cases h3 : z.toNat < y.toNat
            · rw [if_neg h2, if_pos h3] at hbc
              exact absurd hbc (by simp)
            · rw [if_pos (by omega)]
        · by_cases h1' : y.toNat < x.toNat
          · rw [if_neg h1, if_pos h1'] at hab
            exact absurd hab (by simp)
          · rw [if_neg h1, if_neg h1'] at hab
            by_cases h2 : y.toNat < z.toNat
            · rw [if_pos (by omega)]
            · by_cases h3 : z.toNat < y.toNat
              · rw [if_neg h2, if_pos h3] at hbc
                exact absurd hbc (by simp)
              · rw [if_neg h2, if_neg h3] at hbc
                rw [if_neg (by omega), if_neg (by omega)]
                exact ih ys zs hab hbc

theorem charListLtB_connex : ∀ a b : List Char,
    charListLtB a b = false → charListLtB b a = false → a = b := by
  intro a
  induction a with
  | nil =>
    intro b h1 h2
    cases b with
    | nil => rfl
    | cons y ys => exact absurd h1 (by simp [charListLtB])
  | cons x xs ih =>
    intro b h1 h2
    cases b with
    | nil => exact absurd h2 (by simp [charListLtB])
    | cons y ys =>
      rw [charListLtB_cons] at h1 h2
      by_cases hxy : x.toNat < y.toNat
      · rw [if_pos hxy] at h1
        exact absurd h1 (by simp)
      · by_cases hyx : y.toNat < x.toNat
        · rw [if_pos hyx] at h2
          exact absurd h2 (by simp)
        · rw [if_neg hxy, if_neg hyx] at h1
          rw [if_neg hyx, if_neg hxy] at h2
          have hn : x.toNat = y.toNat := by omega
          have hchar : x = y :=
            Char.eq_of_val_eq (UInt32.eq_of_val_eq (Fin.eq_of_val_eq hn))
          rw [hchar, ih ys h1 h2]

theorem strLtB_irrefl (a : String) : strLtB a a = false :=
  charListLtB_irrefl a.data

theorem strLtB_asymm {a b : String} (h : strLtB a b = true) : strLtB b a = false :=
  charListLtB_asymm _ _ h

theorem strLtB_trans {a b c : String} (h1 : strLtB a b = true)
    (h2 : strLtB b c = true) : strLtB a c = true :=
  charListLtB_trans _ _ _ h1 h2

theorem strLtB_eq {a b : String} (h1 : strLtB a b = false)
    (h2 : strLtB b a = false) : a = b := by
  have h := charListLtB_connex a.data b.data h1 h2
  cases a
  cases b
  simp_all

theorem strLtB_ne {a b : String} (h : strLtB a b = true) : a ≠ b := by
  intro hc
  subst hc
  rw [strLtB_irrefl] at h
  exact absurd h (by simp)

theorem pathLeB_nil (b : List String) : pathLeB [] b = true := by
  cases b <;> rfl

theorem pathLeB_cons_nil (a : String) (as : List String) :
    pathLeB (a :: as) [] = false := rfl

theorem pathLeB_cons (a b : String) (as bs : List String) :
    pathLeB (a :: as) (b :: bs) =
      if strLtB a b then true else if a = b then pathLeB as bs else false := rfl

theorem pathLeB_total : ∀ a b : List String, pathLeB a b = true ∨ pathLeB b a = true := by
  intro a
  induction a with
  | nil => intro b; exact Or.inl (pathLeB_nil b)
  | cons x xs ih =>
    intro b
    cases b with
    | nil => exact Or.inr (pathLeB_nil _)
    | cons y ys =>
      by_cases h1 : strLtB x y = true
      · left
        rw [pathLeB_cons, if_pos h1]
      · by_cases h2 : strLtB y x = true
        · right
          rw [pathLeB_cons, if_pos h2]
        · have hxy : x = y :=
            strLtB_eq (Bool.eq_false_iff.mpr h1) (Bool.eq_false_iff.mpr h2)
          subst hxy
          rcases ih ys with h3 | h3
          · left
            rw [pathLeB_cons, if_neg h1, if_pos rfl]
            exact h3
          · right
            rw [pathLeB_cons, if_neg h1, if_pos rfl]
            exact h3

theorem pathLeB_trans : ∀ a b c : List String,
    pathLeB a b = true → pathLeB b c = true → pathLeB a c = true := by
  intro a
  induction a with
  | nil => intro b c _ _; exact pathLeB_nil c
  | cons x xs ih =>
    intro b c hab hbc
    cases b with
    | nil => rw [pathLeB_cons_nil] at hab; exact absurd hab (by simp)
    | cons y ys =>
      cases c with
      | nil => rw [pathLeB_cons_nil] at hbc; exact absurd hbc (by simp)
      | cons z zs =>
        by_cases h1 : strLtB x y = true
        · by_cases h2 : strLtB y z = true
          · rw [pathLeB_cons, if_pos (strLtB_trans h1 h2)]
          · by_cases h3 : y = z
            · subst h3
              rw [pathLeB_cons, if_pos h1]
            · rw [pathLeB_cons, if_neg h2, if_neg h3] at hbc
              exact absurd hbc (by simp)
        · by_cases h1' : x = y
          · subst h1'
            rw [pathLeB_cons, if_neg h1, if_pos rfl] at hab
            by_cases h2 : strLtB x z = true
            · rw [pathLeB_cons, if_pos h2]
            · by_cases h3 : x = z
              · subst h3
                rw [pathLeB_cons, if_neg h2, if_pos rfl] at hbc ⊢
                exact ih ys zs hab hbc
              · rw [pathLeB_cons, if_neg h2, if_neg h3] at hbc
                exact absurd hbc (by simp)
          · rw [pathLeB_cons, if_neg h1, if_neg h1'] at hab
            exact absurd hab (by simp)

theorem pathLeB_antisymm : ∀ a b : List String,
    pathLeB a b = true → pathLeB b a = true → a = b := by
  intro a
  induction a with
  | nil =>
    intro b hab hba
    cases b with
    | nil => rfl
    | cons y ys =>
      rw [pathLeB_cons_nil] at hba
      exact absurd hba (by simp)
  | cons x xs ih =>
    intro b hab hba
    cases b with
    | nil =>
      rw [pathLeB_cons_nil] at hab
      exact absurd hab (by simp)
    | cons y ys =>
      by_cases h1 : strLtB x y = true
      · rw [pathLeB_cons, if_neg (by simp [strLtB_asymm h1]),
          if_neg (Ne.symm (strLtB_ne h1))] at hba
        exact absurd hba (by simp)
      · by_cases h1' : x = y
        · subst h1'
          rw [pathLeB_cons, if_neg h1, if_pos rfl] at hab hba
          rw [ih ys hab hba]
        · rw [pathLeB_cons, if_neg h1, if_neg h1'] at hab
          exact absurd hab (by simp)

theorem dedupAdj_nil : dedupAdj [] = [] := rfl

theorem dedupAdj_single (a : List String) : dedupAdj [a] = [a] := rfl

theorem dedupAdj_cons_cons (a b : List String) (t : List (List String)) :
    dedupAdj (a :: b :: t) =
      if a = b then dedupAdj (b :: t) else a :: dedupAdj (b :: t) := rfl

theorem mem_dedupAdj : ∀ (l : List (List String)) (p : List String),
    p ∈ dedupAdj l ↔ p ∈ l := by
  intro l
  induction l with
  | nil => intro p; rw [dedupAdj_nil]
  | cons a t ih =>
    intro p
    cases t with
    | nil => rw [dedupAdj_single]
    | cons b t2 =>
      by_cases hab : a = b
      · subst hab
        rw [dedupAdj_cons_cons, if_pos rfl, ih p]
        simp only [List.mem_cons]
        tauto
      · rw [dedupAdj_cons_cons, if_neg hab]
        simp only [List.mem_cons, ih p]

theorem dedupAdj_sublist : ∀ l : List (List String), List.Sublist (dedupAdj l) l := by
  intro l
  induction l with
  | nil => rw [dedupAdj_nil]
  | cons a t ih =>
    cases t with
    | nil => rw [dedupAdj_single]
    | cons b t2 =>
      by_cases hab : a = b
      · subst hab
        rw [dedupAdj_cons_cons, if_pos rfl]
        exact List.Sublist.cons _ ih
      · rw [dedupAdj_cons_cons, if_neg hab]
        exact List.Sublist.cons₂ _ ih

theorem dedupAdj_nodup : ∀ l : List (List String),
    l.Pairwise (fun a b => pathLeB a b = true) → (dedupAdj l).Nodup := by
  intro l
  induction l with
  | nil => intro _; rw [dedupAdj_nil]; exact List.nodup_nil
  | cons a t ih =>
    intro h
    rcases List.pairwise_cons.mp h with ⟨ha, ht⟩
    cases t with
    | nil =>
      rw [dedupAdj_single]
      exact List.nodup_singleton a
    | cons b t2 =>
      by_cases hab : a = b
      · subst hab
        rw [dedupAdj_cons_cons, if_pos rfl]
        exact ih ht
      · rw [dedupAdj_cons_cons, if_neg hab]
        refine List.nodup_cons.mpr ⟨?_, ih ht⟩
        intro hmem
        rw [mem_dedupAdj] at hmem
        rcases List.mem_cons.mp hmem with rfl | hmem2
        · exact hab rfl
        · rcases List.pairwise_cons.mp ht with ⟨hb, _⟩
          exact hab (pathLeB_antisymm a b (ha b (List.mem_cons_self _ _)) (hb a hmem2))

theorem foldl_append_eq {α β : Type} (g : α → List β) :
    ∀ (l : List α) (acc : List β),
      l.foldl (fun acc dir => acc ++ g dir) acc = acc ++ l.flatMap g := by
  intro l
  induction l with
  | nil => intro acc; simp
  | cons x t ih =>
    intro acc
    simp [List.foldl_cons, ih, List.append_assoc]

theorem find_repos_eq (root : FsEntry) (dirs : List (List String)) (d : Nat) :
    find_repos root dirs d =
      dedupAdj (isortBy pathLeB (dirs.flatMap (rootScan root d))) := by
  unfold find_repos
  have hbody : (fun (acc : List (List String)) dir =>
      if isDirAt root dir then
        match lookupFs root dir with
        | some node => acc ++ scan_dir node dir 0 d
        | none => acc
      else acc) = fun acc dir => acc ++ rootScan root d dir := by
    funext acc dir
    unfold rootScan
    by_cases h : isDirAt root dir = true
    · simp only [if_pos h]
      cases hl : lookupFs root dir with
      | none => simp
      | some node => simp
    · simp [if_neg h]
  rw [hbody, foldl_append_eq]
  simp

theorem scanDirFuel_zero (node : FsEntry) (path : List String) :
    scanDirFuel 0 node path = [] := rfl

theorem scanDirFuel_succ_file (f : Nat) (c : String) (m : Nat) (path : List String) :
    scanDirFuel (f + 1) (.file c m) path = [] := rfl

theorem scanDirFuel_succ_dir (f : Nat) (entries : List (String × FsEntry)) (m : Nat)
    (path : List String) :
    scanDirFuel (f + 1) (.dir entries m) path =
      if (entries.find? (fun e => e.1 == ".git")).isSome then [path]
      else
        entries.flatMap (fun e =>
          match e.2 with
          | .file _ _ => []
          | .dir es m2 =>
            if hiddenName e.1 then []
            else if SKIP_DIRS.contains e.1 then []
            else scanDirFuel f (.dir es m2) (path ++ [e.1])) := rfl

theorem scanDirFuel_mono : ∀ (fuel : Nat) (node : FsEntry) (path p : List String),
    p ∈ scanDirFuel fuel node path → p ∈ scanDirFuel (fuel + 1) node path := by
  intro fuel
  induction fuel with
  | zero => intro node path p h; rw [scanDirFuel_zero] at h; cases h
  | succ f ih =>
    intro node path p h
    cases node with
    | file c m =>
      rw [scanDirFuel_succ_file] at h
      cases h
    | dir entries m =>
      by_cases hg : (entries.find? (fun e => e.1 == ".git")).isSome = true
      · rw [scanDirFuel_succ_dir, if_pos hg] at h ⊢
        exact h
      · rw [scanDirFuel_succ_dir, if_neg hg] at h ⊢
        rcases List.mem_flatMap.mp h with ⟨e, he, hp⟩
        obtain ⟨ename, echild⟩ := e
        refine List.mem_flatMap.mpr ⟨(ename, echild), he, ?_⟩
        cases echild with
        | file c2 m2 =>
          replace hp : p ∈ ([] : List (List String)) := hp
          cases hp
        | dir es m2 =>
          replace hp : p ∈ (if hiddenName ename then []
            else if SKIP_DIRS.contains ename then []
            else scanDirFuel f (.dir es m2) (path ++ [ename])) := hp
          show p ∈ (if hiddenName ename then []
            else if SKIP_DIRS.contains ename then []
            else scanDirFuel (f + 1) (.dir es m2) (path ++ [ename]))
          by_cases hh : hiddenName ename = true
          · rw [if_pos hh] at hp
            cases hp
          · rw [if_neg hh] at hp ⊢
            by_cases hsk : SKIP_DIRS.contains ename = true
            · rw [if_pos hsk] at hp
              cases hp
            · rw [if_neg hsk] at hp ⊢
              exact ih _ _ _ hp

theorem find?_of_nodup {entries : List (String × FsEntry)}
    (hnodup : (entries.map Prod.fst).Nodup) {e : String × FsEntry} (he : e ∈ entries) :
    entries.find? (fun x => x.1 == e.1) = some e := by
  induction entries with
  | nil => cases he
  | cons x t ih =>
    rcases List.mem_cons.mp he with rfl | hmem
    · exact List.find?_cons_of_pos _ (by simp)
    · have hnd := hnodup
      rw [List.map_cons] at hnd
      rcases List.nodup_cons.mp hnd with ⟨hnotin, htail⟩
      have hx : x.1 ≠ e.1 := by
        intro hcontra
        exact hnotin (hcontra ▸ List.mem_map_of_mem Prod.fst hmem)
      rw [List.find?_cons_of_neg _ (by simp [hx])]
      exact ih htail hmem

theorem scanDirFuel_ancestors : ∀ (fuel : Nat) (node : FsEntry) (path p : List String),
    WfNames node → p ∈ scanDirFuel fuel node path →
    ∃ rel, p = path ++ rel ∧
      (∃ n, lookupFs node rel = some n ∧ hasGitEntry n = true) ∧
      (∀ q, q <+: rel → q ≠ rel → ∀ n, lookupFs node q = some n →
        hasGitEntry n = false) := by
  intro fuel
  induction fuel with
  | zero => intro node path p _ h; rw [scanDirFuel_zero] at h; cases h
  | succ f ih =>
    intro node path p hwf h
    cases node with
    | file c m =>
      rw [scanDirFuel_succ_file] at h
      cases h
    | dir entries m =>
      by_cases hg : (entries.find? (fun e => e.1 == ".git")).isSome = true
      · rw [scanDirFuel_succ_dir, if_pos hg] at h
        have hpp : p = path := by simpa using h
        subst hpp
        refine ⟨[], by simp, ⟨.dir entries m, rfl, by simpa [hasGitEntry] using hg⟩, ?_⟩
        intro q hq hne n hn
        exact absurd (List.prefix_nil.mp hq) hne
      · rw [scanDirFuel_succ_dir, if_neg hg] at h
        rcases List.mem_flatMap.mp h with ⟨e, he, hp⟩
        obtain ⟨ename, echild⟩ := e
        cases echild with
        | file c2 m2 =>
          replace hp : p ∈ ([] : List (List String)) := hp
          cases hp
        | dir es m2 =>
          replace hp : p ∈ (if hiddenName ename then []
            else if SKIP_DIRS.contains ename then []
            else scanDirFuel f (.dir es m2) (path ++ [ename])) := hp
          by_cases hh : hiddenName ename = true
          · rw [if_pos hh] at hp
            cases hp
          · rw [if_neg hh] at hp
            by_cases hsk : SKIP_DIRS.contains ename = true
            · rw [if_pos hsk] at hp
              cases hp
            · rw [if_neg hsk] at hp
              have hnodup : (entries.map Prod.fst).Nodup := by
                cases hwf with
                | dir _ _ hn _ => exact hn
              have hwfc : WfNames (FsEntry.dir es m2) := by
                cases hwf with
                | dir _ _ _ hc => exact hc (ename, FsEntry.dir es m2) he
              obtain ⟨rel', hprel, hgit', hanc'⟩ :=
                ih (FsEntry.dir es m2) (path ++ [ename]) p hwfc hp
              have hfind : entries.find? (fun x => x.1 == ename) = some (ename, FsEntry.dir es m2) :=
                find?_of_nodup hnodup he
              have hlookup : ∀ r : List String,
                  lookupFs (FsEntry.dir entries m) (ename :: r) =
                    lookupFs (FsEntry.dir es m2) r := by
                intro r
                show (match entries.find? (fun x => x.1 == ename) with
                  | some e => lookupFs e.2 r
                  | none => none) = lookupFs (FsEntry.dir es m2) r
                rw [hfind]
              refine ⟨ename :: rel', ?_, ?_, ?_⟩
              · rw [hprel, List.append_assoc]
                rfl
              · obtain ⟨n, hn, hgit⟩ := hgit'
                exact ⟨n, by rw [hlookup rel']; exact hn, hgit⟩
              · intro q hq hne n hn
                cases q with
                | nil =>
                  have hnode : FsEntry.dir entries m = n := by
                    simpa [lookupFs] using hn
                  rw [← hnode]
                  exact Bool.eq_false_iff.mpr hg
                | cons q0 qrest =>
                  obtain ⟨h0, hqrest⟩ := List.cons_prefix_cons.mp hq
                  subst h0
                  have hne' : qrest ≠ rel' := fun hcontra => hne (by rw [hcontra])
                  rw [hlookup qrest] at hn
                  exact hanc' qrest hqrest hne' n hn

/-- C5 counterexample: with scan roots `a` and `a/b` where both are
repositories, `a/b` appears in the output although its ancestor `a` is a
repository — refuting the unrestricted ancestor claim. -/
theorem C5_counterexample :
    ["a", "b"] ∈ find_repos exFs [["a"], ["a", "b"]] 3 ∧
    (∃ n, lookupFs exFs ["a"] = some n ∧ hasGitEntry n = true) ∧
    ["a"] <+: ["a", "b"] ∧ ["a"] ≠ ["a", "b"] :=
  ⟨by decide, ⟨exRepoA, rfl, rfl⟩, ⟨["b"], rfl⟩, by decide⟩

/-- C5 amended: `find_repos` output grows monotonically in `max_depth`,
is sorted (component-wise lexicographic) and duplicate-free, silently
ignores missing roots; and on well-formed layouts the ancestor guarantee
holds per scanned root: every reported path is the root path plus a
relative path whose node has a `.git` entry while no proper prefix of
that relative path (including the scan root itself) does.  A path may
still appear when a repository ancestor lies at or above another scan
root, as the counterexample shows. -/
theorem C5_find_repos_amended :
    (∀ (root : FsEntry) (dirs : List (List String)) (d : Nat) (p : List String),
      p ∈ find_repos root dirs d → p ∈ find_repos root dirs (d + 1)) ∧
    (∀ (root : FsEntry) (dirs : List (List String)) (d : Nat),
      (find_repos root dirs d).Pairwise (fun a b => pathLeB a b = true) ∧
      (find_repos root dirs d).Nodup) ∧
    (∀ (root : FsEntry) (dir : List String) (dirs : List (List String)) (d : Nat),
      isDirAt root dir = false →
      find_repos root (dir :: dirs) d = find_repos root dirs d) ∧
    (∀ (node : FsEntry) (path0 p : List String) (d : Nat),
      WfNames node → p ∈ scan_dir node path0 0 d →
      ∃ rel, p = path0 ++ rel ∧
        (∃ n, lookupFs node rel = some n ∧ hasGitEntry n = true) ∧
        (∀ q, q <+: rel → q ≠ rel → ∀ n, lookupFs node q = some n →
          hasGitEntry n = false)) := by
  refine ⟨?_, ?_, ?_, ?_⟩
  · intro root dirs d p hp
    rw [find_repos_eq] at hp ⊢
    rw [mem_dedupAdj] at hp ⊢
    rw [List.Perm.mem_iff (isortBy_perm _ _)] at hp ⊢
    rcases List.mem_flatMap.mp hp with ⟨dir, hdir, hmem⟩
    refine List.mem_flatMap.mpr ⟨dir, hdir, ?_⟩
    unfold rootScan at hmem ⊢
    by_cases hd : isDirAt root dir = true
    · rw [if_pos hd] at hmem ⊢
      cases hl : lookupFs root dir with
      | none =>
        rw [hl] at hmem
        simp at hmem
      | some node =>
        rw [hl] at hmem
        replace hmem : p ∈ scan_dir node dir 0 d := hmem
        show p ∈ scan_dir node dir 0 (d + 1)
        unfold scan_dir at hmem ⊢
        rw [if_neg (by omega)] at hmem
        rw [if_neg (by omega)]
        simp only [Nat.sub_zero] at hmem ⊢
        exact scanDirFuel_mono _ _ _ _ hmem
    · rw [if_neg hd] at hmem
      simp at hmem
  · intro root dirs d
    rw [find_repos_eq]
    have hsorted := pairwise_isortBy pathLeB pathLeB_total pathLeB_trans
      (dirs.flatMap (rootScan root d))
    exact ⟨List.Pairwise.sublist (dedupAdj_sublist _) hsorted, dedupAdj_nodup _ hsorted⟩
  · intro root dir dirs d h
    unfold find_repos
    simp only [List.foldl_cons]
    rw [if_neg (by simp [h])]
  · intro node path0 p d hwf hp
    unfold scan_dir at hp
    rw [if_neg (by omega)] at hp
    exact scanDirFuel_ancestors _ node path0 p hwf hp

/-- C5 amended, witnessed: a well-formed root with one repo at `proj`
yields that repo with the ancestor guarantee instantiated. -/
theorem C5_amended_witness :
    WfNames exCleanRoot ∧ ["proj"] ∈ scan_dir exCleanRoot [] 0 3 ∧
    (∃ rel, ["proj"] = [] ++ rel ∧
      (∃ n, lookupFs exCleanRoot rel = some n ∧ hasGitEntry n = true) ∧
      (∀ q, q <+: rel → q ≠ rel → ∀ n, lookupFs exCleanRoot q = some n →
        hasGitEntry n = false)) := by
  have w0 : WfNames exGitDir :=
    WfNames.dir [] 0 List.nodup_nil (fun e he => absurd he (List.not_mem_nil e))
  have w1 : WfNames exProj := by
    refine WfNames.dir _ _ (by simp) ?_
    intro e he
    simp only [List.mem_singleton] at he
    rw [he]
    exact w0
  have w2 : WfNames exCleanRoot := by
    refine WfNames.dir _ _ (by simp) ?_
    intro e he
    simp only [List.mem_singleton] at he
    rw [he]
    exact w1
  exact ⟨w2, by decide,
    C5_find_repos_amended.2.2.2 exCleanRoot [] ["proj"] 3 w2 (by decide)⟩

/-! ### Helper lemmas: sequential command traces -/

theorem cmdRun_eq (w : World) (c : Cmd) : cmdRun w c = (cmdResult w c, [c]) := rfl

theorem abortsAtFirstFailure_two (w : World) (c1 c2 : Cmd) :
    abortsAtFirstFailure w [c1, c2]
      (andThen (cmdRun w c1) (fun _ => cmdRun w c2)) := by
  rw [cmdRun_eq w c1, cmdRun_eq w c2]
  cases h1 : cmdResult w c1 with
  | error e1 =>
    refine ⟨0, by simp, rfl, ?_, h1.symm, ?_⟩
    · intro i hi
      exact absurd hi (by omega)
    · rintro ⟨v, hv⟩
      replace hv : Except.error e1 = Except.ok v := hv
      cases hv
  | ok v1 =>
    cases h2 : cmdResult w c2 with
    | error e2 =>
      refine ⟨1, by simp, rfl, ?_, h2.symm, ?_⟩
      · intro i hi
        have hz : i = 0 := by omega
        subst hz
        exact ⟨v1, h1⟩
      · rintro ⟨v, hv⟩
        replace hv : Except.error e2 = Except.ok v := hv
        cases hv
    | ok v2 =>
      refine ⟨1, by simp, rfl, ?_, h2.symm, fun _ => rfl⟩
      intro i hi
      have hz : i = 0 := by omega
      subst hz
      exact ⟨v1, h1⟩

theorem abortsAtFirstFailure_three (w : World) (c1 c2 c3 : Cmd) :
    abortsAtFirstFailure w [c1, c2, c3]
      (andThen (cmdRun w c1) (fun _ =>
        andThen (cmdRun w c2) (fun _ => cmdRun w c3))) := by
  rw [cmdRun_eq w c1, cmdRun_eq w c2, cmdRun_eq w c3]
  cases h1 : cmdResult w c1 with
  | error e1 =>
    refine ⟨0, by simp, rfl, ?_, h1.symm, ?_⟩
    · intro i hi
      exact absurd hi (by omega)
    · rintro ⟨v, hv⟩
      replace hv : Except.error e1 = Except.ok v := hv
      cases hv
  | ok v1 =>
    cases h2 : cmdResult w c2 with
    | error e2 =>
      refine ⟨1, by simp, rfl, ?_, h2.symm, ?_⟩
      · intro i hi
        have hz : i = 0 := by omega
        subst hz
        exact ⟨v1, h1⟩
      · rintro ⟨v, hv⟩
        replace hv : Except.error e2 = Except.ok v := hv
        cases hv
    | ok v2 =>
      cases h3 : cmdResult w c3 with
      | error e3 =>
        refine ⟨2, by simp, rfl, ?_, h3.symm, ?_⟩
        · intro i hi
          match i, hi with
          | 0, _ => exact ⟨v1, h1⟩
          | 1, _ => exact ⟨v2, h2⟩
        · rintro ⟨v, hv⟩
          replace hv : Except.error e3 = Except.ok v := hv
          cases hv
      | ok v3 =>
        refine ⟨2, by simp, rfl, ?_, h3.symm, fun _ => rfl⟩
        intro i hi
        match i, hi with
        | 0, _ => exact ⟨v1, h1⟩
        | 1, _ => exact ⟨v2, h2⟩

/-- C4: `run_action` sends exactly one notification and afterwards exactly
one completion carrying the action's `affected_repo_path`, in that order,
on success and failure alike; and each composite action
(`GitAddCommitPullRebase`, `GitAddCommitPush`, `GitPullRebasePush`) runs
its underlying git commands sequentially, aborting at the first failing
step, so no later step of the composite runs after a failure. -/
theorem C4_run_action_events :
    (∀ (w : World) (a : ActionKind), ∃ msg,
      run_action w a = [.notif msg, .completion a.affected_repo_path]) ∧
    (∀ (w : World) (repo_path message : String),
      abortsAtFirstFailure w
        [⟨some repo_path, "git", ["add", "-A"]⟩,
         ⟨some repo_path, "git", ["commit", "-m", message]⟩,
         ⟨some repo_path, "git", ["pull", "--rebase"]⟩]
        (execute_action w (.GitAddCommitPullRebase repo_path message))) ∧
    (∀ (w : World) (repo_path message : String),
      abortsAtFirstFailure w
        [⟨some repo_path, "git", ["add", "-A"]⟩,
         ⟨some repo_path, "git", ["commit", "-m", message]⟩,
         ⟨some repo_path, "git", ["push"]⟩]
        (execute_action w (.GitAddCommitPush repo_path message))) ∧
    (∀ (w : World) (repo_path : String),
      abortsAtFirstFailure w
        [⟨some repo_path, "git", ["pull", "--rebase"]⟩,
         ⟨some repo_path, "git", ["push"]⟩]
        (execute_action w (.GitPullRebasePush repo_path))) := by
  refine ⟨fun w a => ⟨_, rfl⟩, ?_, ?_, ?_⟩
  · intro w repo_path message
    exact abortsAtFirstFailure_three w
      ⟨some repo_path, "git", ["add", "-A"]⟩
      ⟨some repo_path, "git", ["commit", "-m", message]⟩
      ⟨some repo_path, "git", ["pull", "--rebase"]⟩
  · intro w repo_path message
    exact abortsAtFirstFailure_three w
      ⟨some repo_path, "git", ["add", "-A"]⟩
      ⟨some repo_path, "git", ["commit", "-m", message]⟩
      ⟨some repo_path, "git", ["push"]⟩
  · intro w repo_path
    exact abortsAtFirstFailure_two w
      ⟨some repo_path, "git", ["pull", "--rebase"]⟩
      ⟨some repo_path, "git", ["push"]⟩

end GitPulse
